import Mathlib

/-!
Verification of the `backup` content-addressable backup tool.

This file shallowly embeds the storage and snapshot engine of the Go
sources (internal/backup/store.go, internal/backup/ignore.go,
internal/backup/root.go, internal/backup/check.go, internal/backup/util.go,
internal/unreferenced.go, internal/backup_entry.go) and proves properties
of the embedded definitions.

Conventions of the embedding:
- Byte strings are modelled as `String` / `List Char` (the sources only
  treat bytes positionally, so byte = Char is adequate).
- The MD5 digest function (crypto/md5) and the gzip codec (compress/gzip)
  are external library collaborators; they enter as explicit function
  parameters `md5 : String → String` and `gz : String → String`, and a
  stored file is tagged with whether it is a valid gzip stream
  (`gzip.NewReader` succeeds) or not.
- Filesystem state is explicit: an association list path ↦ bytes for the
  blob store, and inductive trees for source directories and the
  snapshots directory.
-/

deriving instance DecidableEq for Except

namespace BackupSpec

/-- EntryType from store.go: `EntryTypeFile = 0`, `EntryTypeDirectory = 1`,
`EntryTypeLink = 2`. -/
inductive EntryType where
  | file
  | directory
  | link
deriving DecidableEq, Repr

/-- The integer value of the Go `EntryType` constant. -/
def EntryType.tag : EntryType → Nat
  | .file => 0
  | .directory => 1
  | .link => 2

/-- The one-character type tag used by `ContentAsText` in store.go:
"F" for files, "D" for directories, "L" for links. -/
def EntryType.tchar : EntryType → Char
  | .file => 'F'
  | .directory => 'D'
  | .link => 'L'

/-- One child of a directory as serialized: `(type, digest, name)`.
This is the data each `Entry` implementation exposes through
`Type()`, `Hash()`, `Name()` in store.go. -/
structure SEntry where
  etype : EntryType
  hash : String
  name : String
deriving DecidableEq, Repr

/-- entrySorter.Less from store.go: compare by type value first,
then by hash string, then by name string. -/
def entryLess (a b : SEntry) : Bool :=
  if a.etype ≠ b.etype then decide (a.etype.tag < b.etype.tag)
  else if a.hash ≠ b.hash then decide (a.hash < b.hash)
  else decide (a.name < b.name)

/-- Insert one entry in a list ordered by `entryLess`, keeping existing
smaller-or-equal elements in front. -/
def insertEntry (e : SEntry) : List SEntry → List SEntry
  | [] => [e]
  | x :: xs => if entryLess x e then x :: insertEntry e xs else e :: x :: xs

/-- Models `sort.Sort(&entrySorter\x7bentries\x7d)` from DirectoryEntry.scan:
the sorted permutation of the children under `entryLess`.  (Since
`entryLess` never holds in both directions unless the two triples are
equal, the sorted permutation is unique as a list of values, so any
correct sorting algorithm, including Go's, produces this list.) -/
def sortEntries (es : List SEntry) : List SEntry :=
  es.foldr insertEntry []

/-- One serialized directory line from `ContentAsText` in store.go:
`fmt.Sprintf("%s %s %s\n", typeChar, h, child.Name())`. -/
def entryLine (e : SEntry) : List Char :=
  e.etype.tchar :: ' ' :: (e.hash.data ++ ' ' :: e.name.data) ++ ['\n']

/-- The concatenation of the serialized lines of a list of entries, in
order: the loop body of `ContentAsText` in store.go.  `ContentAsText`
itself is this applied to the sorted children, see `ContentAsText`. -/
def linesText : List SEntry → List Char
  | [] => []
  | e :: es => entryLine e ++ linesText es

/-- DirectoryEntry.ContentAsText from store.go applied to the raw child
list: children are sorted by `entrySorter` during scan, then each is
printed as `T SP hash SP name LF`. -/
def ContentAsText (children : List SEntry) : List Char :=
  linesText (sortEntries children)

/-- Strip one trailing CR, as `bufio.ScanLines` (dropCR) does. -/
def dropCR (cs : List Char) : List Char :=
  if cs.getLast? = some '\r' then cs.dropLast else cs

/-- Worker for `scanLines`: `acc` holds the bytes of the current line in
reverse. -/
def scanLinesAux (acc : List Char) : List Char → List (List Char)
  | [] => if acc = [] then [] else [dropCR acc.reverse]
  | c :: cs =>
    if c = '\n' then dropCR acc.reverse :: scanLinesAux [] cs
    else scanLinesAux (c :: acc) cs

/-- The sequence of lines a `bufio.Scanner` with `ScanLines` yields on
this input: split at LF, strip a trailing CR from each token, and do not
yield a final empty token when the input ends with LF. -/
def scanLines (cs : List Char) : List (List Char) :=
  scanLinesAux [] cs

/-- A parsed line of a directory blob, before the type switch. -/
structure RawLine where
  tchar : Char
  hash : String
  name : String
deriving DecidableEq, Repr

/-- BackupDirectory.Entries (backup_entry.go) per-line parse: a line is
rejected with a warning if it is shorter than 36 bytes or byte 1 or
byte 34 is not a space; otherwise the type tag is byte 0, the digest is
bytes 2..33 and the name is bytes 35 onward; a type tag other than
D, F, L is rejected with a warning. `Except.error` stands for the
warning printed to stderr, `Except.ok` for the entry inserted into the
map. -/
def parseEntriesLine (cs : List Char) : Except String SEntry :=
  if cs.length < 36 ∨ ¬ cs[1]? = some ' ' ∨ ¬ cs[34]? = some ' ' then
    .error "invalid directory entry"
  else
    let t := cs.headD ' '
    let hash := String.mk ((cs.drop 2).take 32)
    let name := String.mk (cs.drop 35)
    if t = 'D' then .ok ⟨.directory, hash, name⟩
    else if t = 'F' then .ok ⟨.file, hash, name⟩
    else if t = 'L' then .ok ⟨.link, hash, name⟩
    else .error "unknown entry type"

/-- Fold of `parseEntriesLine` over the scanned lines of a directory
blob, collecting the parsed entries in line order and counting the
warnings the loop prints. -/
def parseEntriesText (cs : List Char) : List SEntry × Nat :=
  (scanLines cs).foldr
    (fun line acc =>
      match parseEntriesLine line with
      | .ok e => (e :: acc.1, acc.2)
      | .error _ => (acc.1, acc.2 + 1))
    ([], 0)

/-- traverseReachable (internal/unreferenced.go) per-line parse: a line
shorter than 36 bytes is skipped silently (no warning is printed and no
separator bytes are checked); otherwise the type tag is byte 0 and the
child digest is bytes 2..33, taken at fixed offsets. -/
def reachParseLine (cs : List Char) : Option (Char × String) :=
  if cs.length < 36 then none
  else some (cs.headD ' ', String.mk ((cs.drop 2).take 32))

/-- Fold of `reachParseLine` over the scanned lines of a directory blob:
the (type tag, child digest) pairs marked by the reachability loop, and
the number of warnings it prints (the loop contains no print, so the
count is zero by construction — faithfully to the source, which has a
bare `continue`). -/
def reachParseText (cs : List Char) : List (Char × String) × Nat :=
  (scanLines cs).foldr
    (fun line acc =>
      match reachParseLine line with
      | some p => (p :: acc.1, acc.2)
      | none => acc)
    ([], 0)

/-- The sort key of an entry: the triple (type tag, digest, name) under
the lexicographic order.  `entryLess` is shown to coincide with the
strict lexicographic order on this key (`entryLess_iff_key_lt`). -/
def entryKey (e : SEntry) : Nat ×ₗ (String ×ₗ String) :=
  toLex (e.etype.tag, toLex (e.hash, e.name))

theorem EntryType.tag_injective {a b : EntryType} (h : a ≠ b) : a.tag ≠ b.tag := by
  cases a <;> cases b <;> simp_all [EntryType.tag]

theorem entryLess_iff_key_lt (a b : SEntry) :
    entryLess a b = true ↔ entryKey a < entryKey b := by
  unfold entryLess entryKey
  by_cases ht : a.etype = b.etype
  · have htag : a.etype.tag = b.etype.tag := by rw [ht]
    by_cases hh : a.hash = b.hash
    · simp [ht, hh, Prod.Lex.lt_iff, htag]
    · simp [ht, hh, Prod.Lex.lt_iff, htag]
  · have htag := EntryType.tag_injective ht
    simp [ht, Prod.Lex.lt_iff, htag]

theorem entryLess_false_iff (a b : SEntry) :
    entryLess a b = false ↔ entryKey b ≤ entryKey a := by
  rw [← not_lt, ← entryLess_iff_key_lt]
  constructor
  · intro h hc; rw [h] at hc; exact Bool.false_ne_true hc
  · intro h; exact Bool.eq_false_iff.mpr (fun hc => h hc)

/-- Sortedness predicate matching the claim: along the serialized
child list, no later entry is strictly below an earlier one in the
`entrySorter` order. -/
def entriesSorted (es : List SEntry) : Prop :=
  List.Pairwise (fun a b => entryLess b a = false) es

theorem entriesSorted_iff (es : List SEntry) :
    entriesSorted es ↔ List.Pairwise (fun a b => entryKey a ≤ entryKey b) es := by
  unfold entriesSorted
  constructor
  · exact fun h => h.imp (fun hab => (entryLess_false_iff _ _).mp hab)
  · exact fun h => h.imp (fun hab => (entryLess_false_iff _ _).mpr hab)

theorem mem_insertEntry (e x : SEntry) (l : List SEntry) :
    x ∈ insertEntry e l ↔ x = e ∨ x ∈ l := by
  induction l with
  | nil => simp [insertEntry]
  | cons y ys ih =>
    cases h : entryLess y e with
    | true => simp [insertEntry, h, ih]; tauto
    | false => simp [insertEntry, h]

theorem insertEntry_pairwise (e : SEntry) (l : List SEntry)
    (hl : List.Pairwise (fun a b => entryKey a ≤ entryKey b) l) :
    List.Pairwise (fun a b => entryKey a ≤ entryKey b) (insertEntry e l) := by
  induction l with
  | nil => simp [insertEntry]
  | cons y ys ih =>
    rcases List.pairwise_cons.mp hl with ⟨hy, hys⟩
    cases h : entryLess y e with
    | true =>
      have hye : entryKey y ≤ entryKey e :=
        le_of_lt ((entryLess_iff_key_lt y e).mp h)
      have hred : insertEntry e (y :: ys) = y :: insertEntry e ys := by
        simp [insertEntry, h]
      rw [hred]
      refine List.pairwise_cons.mpr ⟨?_, ih hys⟩
      intro z hz
      rcases (mem_insertEntry e z ys).mp hz with rfl | hz2
      · exact hye
      · exact hy z hz2
    | false =>
      have hey : entryKey e ≤ entryKey y := (entryLess_false_iff y e).mp h
      have hred : insertEntry e (y :: ys) = e :: y :: ys := by
        simp [insertEntry, h]
      rw [hred]
      refine List.pairwise_cons.mpr ⟨?_, hl⟩
      intro z hz
      rcases List.mem_cons.mp hz with rfl | hz2
      · exact hey
      · exact le_trans hey (hy z hz2)

theorem sortEntries_pairwise (es : List SEntry) :
    List.Pairwise (fun a b => entryKey a ≤ entryKey b) (sortEntries es) := by
  induction es with
  | nil => simp [sortEntries]
  | cons e es ih => exact insertEntry_pairwise e _ ih

theorem sortEntries_sorted (es : List SEntry) : entriesSorted (sortEntries es) :=
  (entriesSorted_iff _).mpr (sortEntries_pairwise es)

theorem insertEntry_of_le (e : SEntry) (l : List SEntry)
    (h : ∀ y ∈ l, entryKey e ≤ entryKey y) : insertEntry e l = e :: l := by
  cases l with
  | nil => rfl
  | cons y ys =>
    have hy : entryKey e ≤ entryKey y := h y (List.mem_cons_self y ys)
    have : entryLess y e = false := (entryLess_false_iff y e).mpr hy
    simp [insertEntry, this]

theorem sortEntries_of_sorted (es : List SEntry)
    (h : List.Pairwise (fun a b => entryKey a ≤ entryKey b) es) :
    sortEntries es = es := by
  induction es with
  | nil => rfl
  | cons e es ih =>
    rcases List.pairwise_cons.mp h with ⟨he, hes⟩
    have : sortEntries (e :: es) = insertEntry e (sortEntries es) := rfl
    rw [this, ih hes, insertEntry_of_le e es he]

theorem sortEntries_idem (es : List SEntry) :
    sortEntries (sortEntries es) = sortEntries es :=
  sortEntries_of_sorted _ (sortEntries_pairwise es)

/-- The conditions under which a serialized entry survives the
fixed-offset parse unchanged: the digest is exactly 32 bytes with no
newline, and the name is nonempty with no newline and no carriage
return.  All entries the builder produces satisfy this (MD5 digests
are 32 hex characters, names are path components). -/
def validEntry (e : SEntry) : Prop :=
  e.hash.data.length = 32 ∧ '\n' ∉ e.hash.data ∧
    e.name.data ≠ [] ∧ '\n' ∉ e.name.data ∧ '\r' ∉ e.name.data

instance : DecidablePred validEntry := fun e => by
  unfold validEntry
  infer_instance

theorem scanLinesAux_append (l rest : List Char) :
    ∀ acc : List Char, '\n' ∉ l →
    scanLinesAux acc (l ++ '\n' :: rest) =
      dropCR (acc.reverse ++ l) :: scanLinesAux [] rest := by
  induction l with
  | nil => intro acc _; simp [scanLinesAux]
  | cons c cs ih =>
    intro acc hl
    have hc : c ≠ '\n' := fun h => hl (h ▸ List.mem_cons_self c cs)
    have hcs : '\n' ∉ cs := fun h => hl (List.mem_cons_of_mem c h)
    show scanLinesAux acc (c :: (cs ++ '\n' :: rest)) = _
    rw [show scanLinesAux acc (c :: (cs ++ '\n' :: rest)) =
      scanLinesAux (c :: acc) (cs ++ '\n' :: rest) by simp [scanLinesAux, hc]]
    rw [ih (c :: acc) hcs]
    simp

theorem scanLines_append (l rest : List Char) (hl : '\n' ∉ l) :
    scanLines (l ++ '\n' :: rest) = dropCR l :: scanLines rest := by
  unfold scanLines
  rw [scanLinesAux_append l rest [] hl]
  simp

theorem scanLines_nil : scanLines [] = [] := rfl

theorem take_length_append (l₁ l₂ : List Char) : (l₁ ++ l₂).take l₁.length = l₁ := by
  induction l₁ with
  | nil => simp
  | cons c cs ih => simp [ih]

theorem drop_length_add_append (l₁ l₂ : List Char) (n : Nat) :
    (l₁ ++ l₂).drop (l₁.length + n) = l₂.drop n := by
  induction l₁ with
  | nil => simp
  | cons c cs ih => simpa [Nat.succ_add] using ih

theorem getElem?_length_append (l₁ l₂ : List Char) : (l₁ ++ l₂)[l₁.length]? = l₂[0]? := by
  induction l₁ with
  | nil => simp
  | cons c cs ih => simpa using ih

/-- The bytes of a serialized directory line before its LF. -/
def entryBody (e : SEntry) : List Char :=
  e.etype.tchar :: ' ' :: e.hash.data ++ ' ' :: e.name.data

theorem entryLine_eq_body (e : SEntry) : entryLine e = entryBody e ++ ['\n'] := by
  simp [entryLine, entryBody]

theorem tchar_ne_newline (t : EntryType) : t.tchar ≠ '\n' := by
  cases t <;> decide

theorem tchar_ne_cr (t : EntryType) : t.tchar ≠ '\r' := by
  cases t <;> decide

theorem newline_not_mem_entryBody (e : SEntry) (h : validEntry e) :
    '\n' ∉ entryBody e := by
  rcases h with ⟨-, hh, -, hn, -⟩
  intro hmem
  unfold entryBody at hmem
  rcases List.mem_cons.mp hmem with h1 | hmem
  · exact tchar_ne_newline e.etype h1.symm
  rcases List.mem_cons.mp hmem with h1 | hmem
  · simp at h1
  rcases List.mem_append.mp hmem with h1 | hmem
  · exact hh h1
  rcases List.mem_cons.mp hmem with h1 | hmem
  · simp at h1
  · exact hn hmem

theorem getLast?_some_mem (l : List Char) (c : Char) (h : l.getLast? = some c) : c ∈ l := by
  induction l with
  | nil => simp at h
  | cons x xs ih =>
    cases hx : xs with
    | nil =>
      subst hx
      simp at h
      simp [h]
    | cons y ys =>
      subst hx
      rw [List.getLast?_cons_cons] at h
      exact List.mem_cons_of_mem x (ih h)

theorem entryBody_length (e : SEntry) : (entryBody e).length = 35 + e.name.data.length ∨
    (entryBody e).length = 3 + e.hash.data.length + e.name.data.length := by
  right
  simp [entryBody]
  omega

theorem dropCR_entryBody (e : SEntry) (h : validEntry e) :
    dropCR (entryBody e) = entryBody e := by
  rcases h with ⟨-, -, hne, -, hr⟩
  unfold dropCR
  have hsplit : entryBody e =
      (e.etype.tchar :: ' ' :: e.hash.data ++ [' ']) ++ e.name.data := by
    simp [entryBody]
  have hlast : (entryBody e).getLast? = e.name.data.getLast? := by
    rw [hsplit, List.getLast?_append_of_ne_nil _ hne]
  rw [hlast]
  cases hj : e.name.data.getLast? with
  | none => simp
  | some c =>
    have hc : c ∈ e.name.data := getLast?_some_mem _ _ hj
    have : c ≠ '\r' := fun h => hr (h ▸ hc)
    simp [this]

theorem parseEntriesLine_body (e : SEntry) (h : validEntry e) :
    parseEntriesLine (entryBody e) = .ok e := by
  rcases h with ⟨hlen, -, hne, -, -⟩
  have hnlen : 1 ≤ e.name.data.length := by
    cases hj : e.name.data with
    | nil => exact absurd hj hne
    | cons c cs => simp
  have hbl : (entryBody e).length = 35 + e.name.data.length := by
    simp [entryBody, hlen]
    omega
  have h36 : ¬ (entryBody e).length < 36 := by omega
  have h1 : (entryBody e)[1]? = some ' ' := by
    simp [entryBody]
  have h34 : (entryBody e)[34]? = some ' ' := by
    show (e.etype.tchar :: ' ' :: e.hash.data ++ ' ' :: e.name.data)[34]? = some ' '
    rw [show (e.etype.tchar :: ' ' :: e.hash.data ++ ' ' :: e.name.data) =
      (e.etype.tchar :: ' ' :: e.hash.data) ++ ' ' :: e.name.data by simp]
    have : (e.etype.tchar :: ' ' :: e.hash.data).length = 34 := by simp [hlen]
    rw [← this, getElem?_length_append]
    simp
  have hdrop2 : (entryBody e).drop 2 = e.hash.data ++ ' ' :: e.name.data := by
    simp [entryBody]
  have htake : ((entryBody e).drop 2).take 32 = e.hash.data := by
    rw [hdrop2, ← hlen, take_length_append]
  have hdrop35 : (entryBody e).drop 35 = e.name.data := by
    show ((e.etype.tchar :: ' ' :: e.hash.data) ++ ' ' :: e.name.data).drop 35 = _
    have h35 : 35 = (e.etype.tchar :: ' ' :: e.hash.data).length + 1 := by simp [hlen]
    rw [h35, drop_length_add_append]
    simp
  have hhead : (entryBody e).headD ' ' = e.etype.tchar := rfl
  unfold parseEntriesLine
  rw [if_neg (by push_neg; exact ⟨by omega, h1, h34⟩)]
  rw [hhead, htake, hdrop35]
  obtain ⟨t, hsh, nm⟩ := e
  cases t <;> rfl

theorem parseEntriesText_linesText (es : List SEntry)
    (h : ∀ e ∈ es, validEntry e) :
    parseEntriesText (linesText es) = (es, 0) := by
  induction es with
  | nil => simp [parseEntriesText, linesText, scanLines_nil]
  | cons e es ih =>
    have hve : validEntry e := h e (List.mem_cons_self e es)
    have hrest : ∀ x ∈ es, validEntry x := fun x hx => h x (List.mem_cons_of_mem e hx)
    have hline : linesText (e :: es) = entryBody e ++ '\n' :: linesText es := by
      simp [linesText, entryLine_eq_body]
    rw [hline]
    unfold parseEntriesText
    rw [scanLines_append _ _ (newline_not_mem_entryBody e hve)]
    rw [dropCR_entryBody e hve]
    have ihx := ih hrest
    unfold parseEntriesText at ihx
    simp only [List.foldr_cons, ihx, parseEntriesLine_body e hve]

theorem mem_sortEntries (x : SEntry) (es : List SEntry) :
    x ∈ sortEntries es ↔ x ∈ es := by
  induction es with
  | nil => simp [sortEntries]
  | cons e es ih =>
    show x ∈ insertEntry e (sortEntries es) ↔ _
    rw [mem_insertEntry]
    simp [ih]

/-- DirectoryEntry.Hash from store.go: the MD5 of the serialized listing
text. -/
def DirectoryHash (md5 : String → String) (children : List SEntry) : String :=
  md5 (String.mk (ContentAsText children))

/-- C3: children of a serialized directory are sorted by
(type tag, digest, name) with file = 0, directory = 1, link = 2; the
payload is exactly the concatenation of the `T SP digest SP name LF`
lines; the directory digest is the hash of that text; and parsing the
stored payload back and re-serializing it yields byte-identical output. -/
theorem directory_serialization_canonical (md5 : String → String)
    (children : List SEntry) (hval : ∀ e ∈ children, validEntry e) :
    entriesSorted (sortEntries children) ∧
    (∀ a b : SEntry, entryLess a b = true ↔ entryKey a < entryKey b) ∧
    (EntryType.tag .file = 0 ∧ EntryType.tag .directory = 1 ∧ EntryType.tag .link = 2) ∧
    ContentAsText children = linesText (sortEntries children) ∧
    DirectoryHash md5 children = md5 (String.mk (ContentAsText children)) ∧
    parseEntriesText (ContentAsText children) = (sortEntries children, 0) ∧
    ContentAsText ((parseEntriesText (ContentAsText children)).1) = ContentAsText children := by
  have hvs : ∀ e ∈ sortEntries children, validEntry e := fun e he =>
    hval e ((mem_sortEntries e children).mp he)
  have hparse : parseEntriesText (ContentAsText children) = (sortEntries children, 0) :=
    parseEntriesText_linesText (sortEntries children) hvs
  refine ⟨sortEntries_sorted children, entryLess_iff_key_lt, by simp [EntryType.tag],
    rfl, rfl, hparse, ?_⟩
  rw [hparse]
  show linesText (sortEntries (sortEntries children)) = _
  rw [sortEntries_idem]
  rfl

/-- A fixed 32-hex digest used by concrete witnesses. -/
def digA : String := "aaaaaaaaaaaaaaaaaaaaaaaaaaaaaaaa"

/-- A second fixed 32-hex digest used by concrete witnesses. -/
def digB : String := "bbbbbbbbbbbbbbbbbbbbbbbbbbbbbbbb"

/-- A stand-in digest function for concrete witnesses (the theorems are
parametric in the digest function; MD5 itself is an external library). -/
def mdW : String → String := fun _ => digA

theorem directory_serialization_canonical_witness :
    parseEntriesText (ContentAsText
        [⟨.directory, digB, "sub"⟩, ⟨.file, digA, "a.txt"⟩]) =
      (sortEntries [⟨.directory, digB, "sub"⟩, ⟨.file, digA, "a.txt"⟩], 0) ∧
    ContentAsText ((parseEntriesText (ContentAsText
        [⟨.directory, digB, "sub"⟩, ⟨.file, digA, "a.txt"⟩])).1) =
      ContentAsText [⟨.directory, digB, "sub"⟩, ⟨.file, digA, "a.txt"⟩] :=
  ⟨(directory_serialization_canonical mdW _ (by decide)).2.2.2.2.2.1,
   (directory_serialization_canonical mdW _ (by decide)).2.2.2.2.2.2⟩

/-- C8 counterexample: on a directory blob consisting of the single
10-byte line `F abc`, the reachability parser (traverseReachable) skips
the short line without emitting any warning, while the Snapshot Reader
parser (BackupDirectory.Entries) warns once on the same input.  The
claim as stated — every parser skips short lines with a warning — is
therefore false for the reachability parser. -/
theorem reach_parser_silent_on_short_line :
    reachParseText (String.data "F abc\n") = ([], 0) ∧
    (parseEntriesText (String.data "F abc\n")).2 = 1 := by
  constructor <;> decide

theorem reachParseText_no_warnings (cs : List Char) : (reachParseText cs).2 = 0 := by
  unfold reachParseText
  induction scanLines cs with
  | nil => rfl
  | cons l ls ih =>
    simp only [List.foldr_cons]
    cases h : reachParseLine l with
    | none => exact ih
    | some p => simpa using ih

/-- C8 (amended): the Entries parser skips any line shorter than
36 bytes, or whose bytes 1 and 34 are not both spaces, with a warning;
the reachability parser skips lines shorter than 36 bytes silently
(its fold emits zero warnings on every input and checks no separator
bytes); both locate the fields at fixed offsets: type tag at byte 0,
digest at bytes 2..33, and (for Entries) name from byte 35 onward. -/
theorem directory_line_parsers_fixed_offsets :
    (∀ cs : List Char,
      cs.length < 36 ∨ ¬ cs[1]? = some ' ' ∨ ¬ cs[34]? = some ' ' →
      parseEntriesLine cs = .error "invalid directory entry") ∧
    (∀ cs : List Char, cs.length < 36 → reachParseLine cs = none) ∧
    (∀ cs : List Char, (reachParseText cs).2 = 0) ∧
    (∀ cs : List Char, ¬ cs.length < 36 →
      reachParseLine cs = some (cs.headD ' ', String.mk ((cs.drop 2).take 32))) ∧
    (∀ cs : List Char, ¬ cs.length < 36 → cs[1]? = some ' ' → cs[34]? = some ' ' →
      parseEntriesLine cs = .error "unknown entry type" ∨
      ∃ e : SEntry, parseEntriesLine cs = .ok e ∧
        e.etype.tchar = cs.headD ' ' ∧
        e.hash = String.mk ((cs.drop 2).take 32) ∧
        e.name = String.mk (cs.drop 35)) := by
  refine ⟨?_, ?_, reachParseText_no_warnings, ?_, ?_⟩
  · intro cs h
    unfold parseEntriesLine
    rw [if_pos]
    tauto
  · intro cs h
    unfold reachParseLine
    rw [if_pos h]
  · intro cs h
    unfold reachParseLine
    rw [if_neg h]
  · intro cs h36 h1 h34
    unfold parseEntriesLine
    rw [if_neg (by push_neg; exact ⟨by omega, h1, h34⟩)]
    by_cases hd : cs.headD ' ' = 'D'
    · right
      refine ⟨⟨.directory, String.mk ((cs.drop 2).take 32), String.mk (cs.drop 35)⟩,
        by rw [if_pos hd], ?_, rfl, rfl⟩
      simpa [EntryType.tchar] using hd.symm
    · by_cases hf : cs.headD ' ' = 'F'
      · right
        refine ⟨⟨.file, String.mk ((cs.drop 2).take 32), String.mk (cs.drop 35)⟩,
          by rw [if_neg hd, if_pos hf], ?_, rfl, rfl⟩
        simpa [EntryType.tchar] using hf.symm
      · by_cases hl : cs.headD ' ' = 'L'
        · right
          refine ⟨⟨.link, String.mk ((cs.drop 2).take 32), String.mk (cs.drop 35)⟩,
            by rw [if_neg hd, if_neg hf, if_pos hl], ?_, rfl, rfl⟩
          simpa [EntryType.tchar] using hl.symm
        · left
          rw [if_neg hd, if_neg hf, if_neg hl]

theorem directory_line_parsers_fixed_offsets_witness :
    parseEntriesLine (String.data "F abc\n") = .error "invalid directory entry" ∧
    reachParseLine (String.data "F abc") = none ∧
    (reachParseText (String.data "F abc")).2 = 0 ∧
    reachParseLine (String.data ("D " ++ digA ++ " sub")) = some ('D', digA) ∧
    (parseEntriesLine (String.data ("D " ++ digA ++ " sub")) = .error "unknown entry type" ∨
      ∃ e : SEntry, parseEntriesLine (String.data ("D " ++ digA ++ " sub")) = .ok e ∧
        e.etype.tchar = (String.data ("D " ++ digA ++ " sub")).headD ' ' ∧
        e.hash = String.mk (((String.data ("D " ++ digA ++ " sub")).drop 2).take 32) ∧
        e.name = String.mk ((String.data ("D " ++ digA ++ " sub")).drop 35)) := by
  have h := directory_line_parsers_fixed_offsets
  refine ⟨h.1 _ (by decide), h.2.1 _ (by decide), h.2.2.1 _, ?_,
    h.2.2.2.2 _ (by decide) (by decide) (by decide)⟩
  rw [h.2.2.2.1 _ (by decide)]
  decide

/-! Embedding of Go `path.Match` (the stdlib glob matcher used by
`IgnoreMatcher.globMatch` in ignore.go).  `path.Match` errors
(ErrBadPattern) are mapped to a non-match, exactly as `globMatch`
swallows them; a pattern error depends only on the pattern, so a failed
parse yields non-match at every position, which is the same final
answer the Go control flow produces. -/

/-- Consume the leading stars of a pattern chunk (scanChunk). -/
def stripStars : List Char → Bool × List Char
  | '*' :: cs => (true, (stripStars cs).2)
  | cs => (false, cs)

/-- The chunk scanner of `path.Match` (scanChunk): take bytes up to the
next top-level `*`, tracking bracket ranges, with `\ ` escaping. -/
def chunkScan : Bool → List Char → List Char × List Char
  | inr, '\\' :: c2 :: cs =>
    let r := chunkScan inr cs
    ('\\' :: c2 :: r.1, r.2)
  | _, ['\\'] => (['\\'], [])
  | _, '[' :: cs =>
    let r := chunkScan true cs
    ('[' :: r.1, r.2)
  | _, ']' :: cs =>
    let r := chunkScan false cs
    (']' :: r.1, r.2)
  | inr, '*' :: cs =>
    if inr then
      let r := chunkScan inr cs
      ('*' :: r.1, r.2)
    else ([], '*' :: cs)
  | inr, c :: cs =>
    let r := chunkScan inr cs
    (c :: r.1, r.2)
  | _, [] => ([], [])

/-- getEsc from path/match.go: read one possibly-escaped character of a
bracket class; `none` is ErrBadPattern. -/
def getEsc : List Char → Option (Char × List Char)
  | [] => none
  | c :: cs =>
    if c = '-' ∨ c = ']' then none
    else if c = '\\' then
      match cs with
      | [] => none
      | c2 :: cs2 => if cs2.isEmpty then none else some (c2, cs2)
    else if cs.isEmpty then none else some (c, cs)

/-- The range loop of the bracket-class case of matchChunk: scan
`lo-hi` ranges until the closing `]`, accumulating whether `r` fell in
any range.  `none` is ErrBadPattern. -/
def parseRanges (r : Char) : Nat → List Char → Bool → Nat → Option (Bool × List Char)
  | 0, _, _, _ => none
  | f + 1, chunk, matched, nrange =>
    match chunk with
    | ']' :: rest =>
      if nrange > 0 then some (matched, rest)
      else none
    | _ =>
      match getEsc chunk with
      | none => none
      | some (lo, c1) =>
        match (if c1.headD ' ' = '-' then getEsc c1.tail else some (lo, c1)) with
        | none => none
        | some (hi, c2) =>
          parseRanges r f c2 (matched || (lo ≤ r ∧ r ≤ hi)) (nrange + 1)

/-- matchChunk from path/match.go: match a star-free chunk at the head
of `s`; `some rest` is a successful match, `none` is a failed match or
ErrBadPattern (the Go caller treats both as final non-match, see the
note above). -/
def mcGo : Nat → Bool → List Char → List Char → Option (List Char)
  | 0, _, _, _ => none
  | _ + 1, failed, [], s => if failed then none else some s
  | f + 1, failed0, c :: ctl, s =>
    let failed := if ¬ failed0 ∧ s.isEmpty then true else failed0
    if c = '[' then
      let r := if failed then Char.ofNat 0 else s.headD (Char.ofNat 0)
      let s2 := if failed then s else s.tail
      let (negated, c2) :=
        match ctl with
        | '^' :: t => (true, t)
        | _ => (false, ctl)
      match parseRanges r (c2.length + 1) c2 false 0 with
      | none => none
      | some (m, c3) => mcGo f (if m = negated then true else failed) c3 s2
    else if c = '?' then
      if failed then mcGo f failed ctl s
      else if s.headD ' ' = '/' then mcGo f true ctl s.tail
      else mcGo f failed ctl s.tail
    else if c = '\\' then
      match ctl with
      | [] => none
      | c2 :: ctl2 =>
        if failed then mcGo f failed ctl2 s
        else if s.headD (Char.ofNat 0) = c2 then mcGo f failed ctl2 s.tail
        else mcGo f true ctl2 s.tail
    else
      if failed then mcGo f failed ctl s
      else if s.headD (Char.ofNat 0) = c then mcGo f failed ctl s.tail
      else mcGo f true ctl s.tail

def matchChunk (chunk s : List Char) : Option (List Char) :=
  mcGo (chunk.length + 1) false chunk s

mutual

/-- The main loop of path.Match, with explicit fuel (every recursive
call strictly shrinks the pattern, so any fuel beyond the pattern
length is equivalent; `pathMatch` supplies a generous bound). -/
def goMatch : Nat → List Char → List Char → Bool
  | 0, _, _ => false
  | _ + 1, [], name => name.isEmpty
  | f + 1, pattern, name =>
    let (star, rest0) := stripStars pattern
    let (chunk, rest) := chunkScan false rest0
    if star ∧ chunk.isEmpty then ¬ name.contains '/'
    else
      match matchChunk chunk name with
      | some t =>
        if t.isEmpty ∨ ¬ rest.isEmpty then goMatch f rest t
        else if star then starLoop f chunk rest name
        else false
      | none =>
        if star then starLoop f chunk rest name
        else false

/-- The star backtracking loop of path.Match: retry the chunk at every
byte offset of the name up to the next slash. -/
def starLoop : Nat → List Char → List Char → List Char → Bool
  | 0, _, _, _ => false
  | _ + 1, _, _, [] => false
  | f + 1, chunk, rest, c :: tl =>
    if c = '/' then false
    else
      match matchChunk chunk tl with
      | some t =>
        if rest.isEmpty ∧ ¬ t.isEmpty then starLoop f chunk rest tl
        else goMatch f rest t
      | none => starLoop f chunk rest tl

end

/-- Go `path.Match pattern name` as a boolean (errors mapped to
non-match as in `IgnoreMatcher.globMatch`). -/
def pathMatch (pattern name : String) : Bool :=
  goMatch ((pattern.data.length + 2) * (name.data.length + 2) + 2) pattern.data name.data

/-- One compiled ignore pattern (ignore.go `Pattern`). -/
structure Pattern where
  raw : String
  pattern : String
  isNegation : Bool
  isDirOnly : Bool
  isRooted : Bool
  source : String
deriving DecidableEq, Repr

/-- Whitespace in the sense of `strings.TrimSpace` (ASCII subset; names
and patterns in this development are ASCII). -/
def isSpaceGo (c : Char) : Bool :=
  c = ' ' ∨ c = '\t' ∨ c = '\n' ∨ c = '\r' ∨ c = '\x0b' ∨ c = '\x0c'

def trimSpaceChars (cs : List Char) : List Char :=
  ((cs.dropWhile isSpaceGo).reverse.dropWhile isSpaceGo).reverse

/-- loadFile from ignore.go, one line: trim, skip blanks and comments,
strip `!` (negation), a trailing `/` (directory-only) and a leading `/`
(rooted), in that order. -/
def parsePatternLine (src : String) (rawLine : List Char) : Option Pattern :=
  let line := trimSpaceChars rawLine
  match line with
  | [] => none
  | c :: _ =>
    if c = '#' then none
    else
      let (neg, l1) :=
        match line with
        | '!' :: t => (true, t)
        | _ => (false, line)
      let (dir, l2) := if l1.getLast? = some '/' then (true, l1.dropLast) else (false, l1)
      let (rooted, l3) :=
        match l2 with
        | '/' :: t => (true, t)
        | _ => (false, l2)
      some ⟨String.mk line, String.mk l3, neg, dir, rooted, src⟩

/-- loadFile over a whole ignore file body. -/
def loadIgnoreLines (src : String) (content : String) : List Pattern :=
  (scanLines content.data).filterMap (parsePatternLine src)

/-- The matcher chain of ignore.go: each matcher owns the patterns of
one directory; `nested` also records the directory's name inside its
parent (so a candidate path relative to this matcher becomes
`dirName/...` relative to the parent, which is how `filepath.Rel`
recomputes it in the Go code). -/
inductive IgnoreM where
  | top (patterns : List Pattern)
  | nested (patterns : List Pattern) (dirName : String) (parent : IgnoreM)

def IgnoreM.patterns : IgnoreM → List Pattern
  | .top ps => ps
  | .nested ps _ _ => ps

/-- Join path components with `/` (the matcher works on
slash-separated relative paths after `filepath.ToSlash`). -/
def joinSlash : List String → String
  | [] => ""
  | [s] => s
  | s :: rest => s ++ "/" ++ joinSlash rest

/-- The per-pattern test in the body of IgnoreMatcher.Match: a
directory-only pattern never matches a non-directory; a rooted pattern
and a pattern containing `/` are matched against the relative path;
otherwise the pattern is matched against the basename. -/
def patternMatches (p : Pattern) (relStr base : String) (isDir : Bool) : Bool :=
  if p.isDirOnly ∧ ¬ isDir then false
  else if p.isRooted then pathMatch p.pattern relStr
  else if p.pattern.data.contains '/' then pathMatch p.pattern relStr
  else pathMatch p.pattern base

/-- The reverse scan of IgnoreMatcher.Match: walk the pattern list from
the last element down and return the first one that matches. -/
def scanReverse (pats : List Pattern) (relStr base : String) (isDir : Bool) : Option Pattern :=
  pats.reverse.find? (fun p => patternMatches p relStr base isDir)

/-- IgnoreMatcher.Match from ignore.go, on a candidate given as path
components relative to the matcher's directory.  Returns
(shouldIgnore, matched pattern). -/
def Match : IgnoreM → List String → Bool → Bool × Option Pattern
  | .top pats, rel, isDir =>
    match scanReverse pats (joinSlash rel) (rel.getLastD "") isDir with
    | some p => (!p.isNegation, some p)
    | none => (false, none)
  | .nested pats dirName parent, rel, isDir =>
    match scanReverse pats (joinSlash rel) (rel.getLastD "") isDir with
    | some p => (!p.isNegation, some p)
    | none => Match parent (dirName :: rel) isDir

/-- Modelled from the spec, for comparison with `Match`: the LAST
pattern in file order to match wins (positive match ignores, negation
match forces inclusion and stops); if no local pattern matches the
decision is delegated to the parent matcher; if no matcher matches the
default is include. -/
def specLocal (pats : List Pattern) (relStr base : String) (isDir : Bool) : Option Pattern :=
  (pats.filter (fun p => patternMatches p relStr base isDir)).getLast?

/-- Modelled from the spec: the whole-chain decision built from
`specLocal` (see `specLocal`). -/
def specMatch : IgnoreM → List String → Bool → Bool × Option Pattern
  | .top pats, rel, isDir =>
    match specLocal pats (joinSlash rel) (rel.getLastD "") isDir with
    | some p => (!p.isNegation, some p)
    | none => (false, none)
  | .nested pats dirName parent, rel, isDir =>
    match specLocal pats (joinSlash rel) (rel.getLastD "") isDir with
    | some p => (!p.isNegation, some p)
    | none => specMatch parent (dirName :: rel) isDir

theorem find?_append (l₁ l₂ : List Pattern) (p : Pattern → Bool) :
    (l₁ ++ l₂).find? p =
      match l₁.find? p with
      | some x => some x
      | none => l₂.find? p := by
  induction l₁ with
  | nil => simp
  | cons a l ih =>
    by_cases h : p a
    · simp [List.find?, h]
    · simp only [List.cons_append, List.find?]
      rw [Bool.eq_false_iff.mpr h]
      simpa using ih

theorem getLast?_cons_ne_nil (a : Pattern) (l : List Pattern) (h : l ≠ []) :
    (a :: l).getLast? = l.getLast? := by
  cases l with
  | nil => exact absurd rfl h
  | cons b t => rw [List.getLast?_cons_cons]

theorem find?_reverse_eq_getLast?_filter (l : List Pattern) (p : Pattern → Bool) :
    l.reverse.find? p = (l.filter p).getLast? := by
  induction l with
  | nil => simp
  | cons a l ih =>
    rw [List.reverse_cons, find?_append, ih]
    by_cases h : p a
    · simp only [List.filter_cons_of_pos h]
      cases hf : (l.filter p).getLast? with
      | none =>
        have : l.filter p = [] := List.getLast?_eq_none_iff.mp hf
        simp [this, List.find?, h]
      | some x =>
        have hne : l.filter p ≠ [] := by
          intro hnil
          rw [hnil] at hf
          simp at hf
        rw [getLast?_cons_ne_nil a _ hne, hf]
    · simp only [List.filter_cons_of_neg h]
      cases hf : (l.filter p).getLast? with
      | none => simp [List.find?, Bool.eq_false_iff.mpr h]
      | some x => rfl

theorem scanReverse_eq_specLocal (pats : List Pattern) (relStr base : String) (isDir : Bool) :
    scanReverse pats relStr base isDir = specLocal pats relStr base isDir :=
  find?_reverse_eq_getLast?_filter pats _

/-- C5: the ignore decision of IgnoreMatcher.Match coincides with the
spec's description: the last pattern in file order to match wins, a
positive match ignores, a negation match forces inclusion and stops;
with no local match the decision is delegated to the parent; with no
match anywhere the result is include (false, no pattern). -/
theorem ignore_match_last_wins :
    (∀ (m : IgnoreM) (rel : List String) (isDir : Bool),
      Match m rel isDir = specMatch m rel isDir) ∧
    (∀ (pats : List Pattern) (dirName : String) (parent : IgnoreM)
        (rel : List String) (isDir : Bool) (p : Pattern),
      specLocal pats (joinSlash rel) (rel.getLastD "") isDir = some p →
      Match (.nested pats dirName parent) rel isDir = (!p.isNegation, some p)) ∧
    (∀ (pats : List Pattern) (dirName : String) (parent : IgnoreM)
        (rel : List String) (isDir : Bool),
      specLocal pats (joinSlash rel) (rel.getLastD "") isDir = none →
      Match (.nested pats dirName parent) rel isDir = Match parent (dirName :: rel) isDir) ∧
    (∀ (rel : List String) (isDir : Bool),
      Match (.top []) rel isDir = (false, none)) := by
  have htop : ∀ (pats : List Pattern) (rel : List String) (isDir : Bool),
      Match (.top pats) rel isDir =
        match scanReverse pats (joinSlash rel) (rel.getLastD "") isDir with
        | some p => (!p.isNegation, some p)
        | none => (false, none) := fun _ _ _ => rfl
  have hnested : ∀ (pats : List Pattern) (dirName : String) (parent : IgnoreM)
      (rel : List String) (isDir : Bool),
      Match (.nested pats dirName parent) rel isDir =
        match scanReverse pats (joinSlash rel) (rel.getLastD "") isDir with
        | some p => (!p.isNegation, some p)
        | none => Match parent (dirName :: rel) isDir := fun _ _ _ _ _ => rfl
  have hstop : ∀ (pats : List Pattern) (rel : List String) (isDir : Bool),
      specMatch (.top pats) rel isDir =
        match specLocal pats (joinSlash rel) (rel.getLastD "") isDir with
        | some p => (!p.isNegation, some p)
        | none => (false, none) := fun _ _ _ => rfl
  have hsnested : ∀ (pats : List Pattern) (dirName : String) (parent : IgnoreM)
      (rel : List String) (isDir : Bool),
      specMatch (.nested pats dirName parent) rel isDir =
        match specLocal pats (joinSlash rel) (rel.getLastD "") isDir with
        | some p => (!p.isNegation, some p)
        | none => specMatch parent (dirName :: rel) isDir := fun _ _ _ _ _ => rfl
  have hmain : ∀ (m : IgnoreM) (rel : List String) (isDir : Bool),
      Match m rel isDir = specMatch m rel isDir := by
    intro m
    induction m with
    | top pats =>
      intro rel isDir
      rw [htop, hstop, scanReverse_eq_specLocal]
    | nested pats dirName parent ih =>
      intro rel isDir
      rw [hnested, hsnested, scanReverse_eq_specLocal]
      cases specLocal pats (joinSlash rel) (rel.getLastD "") isDir with
      | some p => rfl
      | none => exact ih (dirName :: rel) isDir
  refine ⟨hmain, ?_, ?_, ?_⟩
  · intro pats dirName parent rel isDir p hp
    rw [hnested, scanReverse_eq_specLocal, hp]
  · intro pats dirName parent rel isDir hp
    rw [hnested, scanReverse_eq_specLocal, hp]
  · intro rel isDir
    rfl

/-! Embedding of the Snapshot Builder walk (DirectoryEntry.scan and the
Entry constructors from store.go) over an explicit source-tree model. -/

mutual

/-- One filesystem node of the source tree.  A directory carries
`readable = false` when `os.ReadDir` on it fails (the error branch in
DirectoryEntry.scan). -/
inductive SrcNode where
  | sfile (content : String)
  | slink (target : String)
  | sdir (readable : Bool) (children : SrcChildren)

/-- The `os.ReadDir` listing of a directory, in directory order. -/
inductive SrcChildren where
  | nil
  | cons (name : String) (node : SrcNode) (rest : SrcChildren)

end

/-- DirEntry.IsDir of a child, as `os.ReadDir` reports it: lstat-based,
so a symlink is not a directory. -/
def SrcNode.isDirB : SrcNode → Bool
  | .sdir _ _ => true
  | _ => false

def SrcChildren.lookup : SrcChildren → String → Option SrcNode
  | .nil, _ => none
  | .cons n node rest, q => if n = q then some node else rest.lookup q

/-- LoadIgnoreFiles from ignore.go: load `.gitignore` then
`.backupignore` from the directory, appending patterns. -/
def loadPatternsOf (children : SrcChildren) : List Pattern :=
  (match children.lookup ".gitignore" with
   | some (.sfile c) => loadIgnoreLines ".gitignore" c
   | _ => []) ++
  (match children.lookup ".backupignore" with
   | some (.sfile c) => loadIgnoreLines ".backupignore" c
   | _ => [])

mutual

/-- A constructed Entry tree (FileEntry / LinkEntry / DirectoryEntry
after scan): directory children are stored sorted. -/
inductive Built where
  | bfile (name content : String)
  | blink (name target : String)
  | bdir (name : String) (children : BuiltList)

inductive BuiltList where
  | bnil
  | bcons (b : Built) (rest : BuiltList)

end

mutual

/-- The `(Type, Hash, Name)` triple of a constructed entry:
a file hashes its content (HashCache.FileHash), a link hashes its
target bytes (NewLinkEntry), a directory hashes its serialized listing
(DirectoryEntry.Hash). -/
def bEntry (md5 : String → String) : Built → SEntry
  | .bfile n c => ⟨.file, md5 c, n⟩
  | .blink n t => ⟨.link, md5 t, n⟩
  | .bdir n cs => ⟨.directory, md5 (String.mk (bText md5 cs)), n⟩

/-- The listing text of a directory's (already sorted) children:
DirectoryEntry.ContentAsText. -/
def bText (md5 : String → String) : BuiltList → List Char
  | .bnil => []
  | .bcons b rest => entryLine (bEntry md5 b) ++ bText md5 rest

end

def bEntries (md5 : String → String) : BuiltList → List SEntry
  | .bnil => []
  | .bcons b rest => bEntry md5 b :: bEntries md5 rest

/-- entrySorter.Less lifted to constructed entries. -/
def bLess (md5 : String → String) (a b : Built) : Bool :=
  entryLess (bEntry md5 a) (bEntry md5 b)

def bInsert (md5 : String → String) (x : Built) : BuiltList → BuiltList
  | .bnil => .bcons x .bnil
  | .bcons y rest =>
    if bLess md5 y x then .bcons y (bInsert md5 x rest)
    else .bcons x (.bcons y rest)

/-- The `sort.Sort(&entrySorter...)` call at the end of
DirectoryEntry.scan (see `sortEntries` for why the sorted permutation
is unique). -/
def bSort (md5 : String → String) : BuiltList → BuiltList
  | .bnil => .bnil
  | .bcons x rest => bInsert md5 x (bSort md5 rest)

/-- The decision DirectoryEntry.scan takes for one candidate child, in
source order: (1) consult the ignore chain with the lstat-based is-dir
flag — a match records the child as ignored; (2) a symlink is
re-checked against the ignore chain with is-dir false and otherwise
becomes a Link entry; (3) a remaining child named `.backup` is skipped;
(4) the rest become directory or file entries. -/
inductive ChildAction where
  | ignoredA (p : Option Pattern)
  | linkA (target : String)
  | skipBackupA
  | dirA
  | fileA
deriving DecidableEq, Repr

/-- The per-child branch structure of DirectoryEntry.scan
(store.go lines 388-446), in the source's order of checks. -/
def classifyChild (m : IgnoreM) (name : String) (node : SrcNode) : ChildAction :=
  let first := Match m [name] node.isDirB
  if first.1 then .ignoredA first.2
  else
    match node with
    | .slink t =>
      let second := Match m [name] false
      if second.1 then .ignoredA second.2 else .linkA t
    | _ =>
      if name = ".backup" then .skipBackupA
      else
        match node with
        | .sdir _ _ => .dirA
        | _ => .fileA

mutual

/-- DirectoryEntry.scan plus the Entry constructors: build the entry
tree for one node.  `m` is the ignore matcher of the enclosing
directory when the node is a file or link, and of the directory itself
when the node is a directory.  An unreadable directory (`os.ReadDir`
error) is built with an empty child list — the `return nil` branch of
scan. -/
def buildNode (md5 : String → String) (m : IgnoreM) (name : String) : SrcNode → Built
  | .sfile c => .bfile name c
  | .slink t => .blink name t
  | .sdir readable children =>
    if readable then .bdir name (bSort md5 (buildChildren md5 m children))
    else .bdir name .bnil

/-- The child loop of DirectoryEntry.scan: classify each child and
construct its entry; subdirectories get a fresh matcher loaded from
their own ignore files, chained to the current one. -/
def buildChildren (md5 : String → String) (m : IgnoreM) : SrcChildren → BuiltList
  | .nil => .bnil
  | .cons cname cnode rest =>
    let restB := buildChildren md5 m rest
    match classifyChild m cname cnode, cnode with
    | .ignoredA _, _ => restB
    | .skipBackupA, _ => restB
    | .linkA t, _ => .bcons (.blink cname t) restB
    | .dirA, .sdir r ch =>
      .bcons (buildNode md5 (.nested (loadPatternsOf ch) cname m) cname (.sdir r ch)) restB
    | .dirA, _ => restB
    | .fileA, .sfile c => .bcons (.bfile cname c) restB
    | .fileA, _ => restB

end

/-- The ignored-entries list DirectoryEntry.scan accumulates for one
directory (name and matched pattern of each ignored child). -/
def dirIgnored (m : IgnoreM) : SrcChildren → List (String × Option Pattern)
  | .nil => []
  | .cons cname cnode rest =>
    match classifyChild m cname cnode with
    | .ignoredA p => (cname, p) :: dirIgnored m rest
    | _ => dirIgnored m rest

/-- NewDirectoryEntry on the source root (parent matcher nil) followed
by scan: the root matcher is loaded from the root's own ignore files. -/
def buildRoot (md5 : String → String) (name : String) : SrcNode → Built
  | .sdir r ch => buildNode md5 (.top (loadPatternsOf ch)) name (.sdir r ch)
  | other => buildNode md5 (.top []) name other

/-- The ignore pattern compiled from the line `.backup` of a
`.gitignore`, used by the C6 counterexample. -/
def patBackup : Pattern := ⟨".backup", ".backup", false, false, false, ".gitignore"⟩

/-- C6 counterexample: the claim says a child named `.backup` is skipped
before ignore-pattern evaluation and regardless of whether it is a
symlink.  In the code the ignore chain runs first and symlinks are
classified before the `.backup` check: with an ignore pattern
`.backup`, a directory named `.backup` is recorded as ignored (not
silently skipped), and with no patterns a symlink named `.backup`
becomes a Link entry. -/
theorem backup_skip_not_first :
    classifyChild (.top [patBackup]) ".backup" (.sdir true .nil) =
      .ignoredA (some patBackup) ∧
    classifyChild (.top []) ".backup" (.slink "t") = .linkA "t" ∧
    ChildAction.ignoredA (some patBackup) ≠ .skipBackupA ∧
    ChildAction.linkA "t" ≠ .skipBackupA := by
  refine ⟨by decide, by decide, by decide, by decide⟩

theorem mem_bEntries_bInsert (md5 : String → String) (x : Built) :
    ∀ (l : BuiltList) (e : SEntry),
      e ∈ bEntries md5 (bInsert md5 x l) ↔ e = bEntry md5 x ∨ e ∈ bEntries md5 l
  | .bnil, e => by simp [bInsert, bEntries]
  | .bcons y rest, e => by
    cases h : bLess md5 y x with
    | true =>
      have hred : bInsert md5 x (.bcons y rest) = .bcons y (bInsert md5 x rest) := by
        simp [bInsert, h]
      rw [hred]
      show e ∈ bEntry md5 y :: bEntries md5 (bInsert md5 x rest) ↔ _
      rw [List.mem_cons, mem_bEntries_bInsert md5 x rest e]
      show _ ↔ _ ∨ e ∈ bEntry md5 y :: bEntries md5 rest
      rw [List.mem_cons]
      tauto
    | false =>
      have hred : bInsert md5 x (.bcons y rest) = .bcons x (.bcons y rest) := by
        simp [bInsert, h]
      rw [hred]
      show e ∈ bEntry md5 x :: bEntries md5 (.bcons y rest) ↔ _
      rw [List.mem_cons]

theorem mem_bEntries_bSort (md5 : String → String) :
    ∀ (l : BuiltList) (e : SEntry),
      e ∈ bEntries md5 (bSort md5 l) ↔ e ∈ bEntries md5 l
  | .bnil, e => Iff.rfl
  | .bcons x rest, e => by
    show e ∈ bEntries md5 (bInsert md5 x (bSort md5 rest)) ↔ _
    rw [mem_bEntries_bInsert, mem_bEntries_bSort md5 rest e]
    show _ ↔ e ∈ bEntry md5 x :: bEntries md5 rest
    rw [List.mem_cons]

theorem classifyChild_dirA_name (m : IgnoreM) (name : String) (node : SrcNode)
    (h : classifyChild m name node = .dirA) : name ≠ ".backup" := by
  intro hname
  subst hname
  unfold classifyChild at h
  by_cases h1 : (Match m [".backup"] node.isDirB).1
  · simp [h1] at h
  · cases node with
    | slink t =>
      by_cases h2 : (Match m [".backup"] false).1 <;> simp [h1, h2] at h
    | sfile c => simp [h1] at h
    | sdir r ch => simp [h1] at h

theorem classifyChild_fileA_name (m : IgnoreM) (name : String) (node : SrcNode)
    (h : classifyChild m name node = .fileA) : name ≠ ".backup" := by
  intro hname
  subst hname
  unfold classifyChild at h
  by_cases h1 : (Match m [".backup"] node.isDirB).1
  · simp [h1] at h
  · cases node with
    | slink t =>
      by_cases h2 : (Match m [".backup"] false).1 <;> simp [h1, h2] at h
    | sfile c => simp [h1] at h
    | sdir r ch => simp [h1] at h

theorem buildChildren_backup_only_link (md5 : String → String) (m : IgnoreM) :
    ∀ (ch : SrcChildren) (e : SEntry),
      e ∈ bEntries md5 (buildChildren md5 m ch) → e.name = ".backup" → e.etype = .link
  | .nil, e => by intro he _; simp [buildChildren, bEntries] at he
  | .cons cname cnode rest, e => by
    intro he hname
    have ih := buildChildren_backup_only_link md5 m rest e
    revert he
    show e ∈ bEntries md5 (buildChildren md5 m (.cons cname cnode rest)) → _
    unfold buildChildren
    cases hc : classifyChild m cname cnode with
    | ignoredA p => intro he; exact ih he hname
    | skipBackupA => intro he; exact ih he hname
    | linkA t =>
      intro he
      rcases List.mem_cons.mp he with rfl | he2
      · rfl
      · exact ih he2 hname
    | dirA =>
      cases cnode with
      | sdir r ch2 =>
        intro he
        rcases List.mem_cons.mp he with rfl | he2
        · have hnm : (bEntry md5 (buildNode md5 (.nested (loadPatternsOf ch2) cname m)
              cname (.sdir r ch2))).name = cname := by
            cases r <;> rfl
          rw [hnm] at hname
          exact absurd hname (classifyChild_dirA_name m cname _ hc)
        · exact ih he2 hname
      | sfile c => intro he; exact ih he hname
      | slink t => intro he; exact ih he hname
    | fileA =>
      cases cnode with
      | sfile c =>
        intro he
        rcases List.mem_cons.mp he with rfl | he2
        · exact absurd hname (classifyChild_fileA_name m cname _ hc)
        · exact ih he2 hname
      | sdir r ch2 => intro he; exact ih he hname
      | slink t => intro he; exact ih he hname

/-- C6 (amended): the per-child order of DirectoryEntry.scan is:
(1) the ignore chain decides first — also for a child named `.backup`;
(2) a non-ignored symlink becomes a Link entry whose digest is the hash
of the link-target bytes (the re-check uses is-dir false, which for a
symlink is what the first check already used); (3) only a non-symlink
child named `.backup` that the ignore chain did not match is skipped;
consequently a serialized directory never lists a non-link child named
`.backup`. -/
theorem scan_child_order (md5 : String → String) :
    (∀ (m : IgnoreM) (name : String) (node : SrcNode),
      (Match m [name] node.isDirB).1 = true →
      classifyChild m name node = .ignoredA (Match m [name] node.isDirB).2) ∧
    (∀ (m : IgnoreM) (name target : String),
      (Match m [name] false).1 = false →
      classifyChild m name (.slink target) = .linkA target) ∧
    (∀ (name target : String),
      bEntry md5 (.blink name target) = ⟨.link, md5 target, name⟩) ∧
    (∀ (m : IgnoreM) (node : SrcNode),
      (∀ t, node ≠ .slink t) →
      (Match m [".backup"] node.isDirB).1 = false →
      classifyChild m ".backup" node = .skipBackupA) ∧
    (∀ (m : IgnoreM) (ch : SrcChildren) (e : SEntry),
      e ∈ bEntries md5 (bSort md5 (buildChildren md5 m ch)) →
      e.name = ".backup" → e.etype = .link) := by
  refine ⟨?_, ?_, fun _ _ => rfl, ?_, ?_⟩
  · intro m name node h1
    unfold classifyChild
    simp [h1]
  · intro m name target h2
    unfold classifyChild
    simp [SrcNode.isDirB, h2]
  · intro m node hns h1
    unfold classifyChild
    cases node with
    | slink t => exact absurd rfl (hns t)
    | sfile c => simp [h1]
    | sdir r ch => simp [h1]
  · intro m ch e he hname
    exact buildChildren_backup_only_link md5 m ch e
      ((mem_bEntries_bSort md5 _ e).mp he) hname

theorem scan_child_order_witness :
    classifyChild (.top [patBackup]) "x.log" (.sfile "data") = .fileA ∧
    classifyChild (.top []) "ln" (.slink "target") = .linkA "target" ∧
    classifyChild (.top []) ".backup" (.sdir true .nil) = .skipBackupA ∧
    bEntry mdW (.blink "ln" "target") = ⟨.link, mdW "target", "ln"⟩ := by
  have h := scan_child_order mdW
  refine ⟨by decide, h.2.1 (.top []) "ln" "target" (by decide), ?_, h.2.2.1 "ln" "target"⟩
  exact h.2.2.2.1 (.top []) (.sdir true .nil) (fun t => by intro hh; cases hh) (by decide)

/-! Embedding of blob placement (FileEntry.Save, LinkEntry.Save,
DirectoryEntry.Save from store.go) over an explicit store filesystem:
an association list path ↦ file bytes, rooted at the store directory
(so `DataStore` returns store-relative paths). -/

/-- The store's on-disk file map. -/
abbrev St := List (String × String)

def stLookup : St → String → Option String
  | [], _ => none
  | kv :: rest, p => if kv.1 = p then some kv.2 else stLookup rest p

def stErase : St → String → St
  | [], _ => []
  | kv :: rest, p => if kv.1 = p then stErase rest p else kv :: stErase rest p

/-- Create/truncate-and-write of one file (os.Create + write). -/
def stInsert (st : St) (p v : String) : St := (p, v) :: stErase st p

/-- Store.DataStore from store.go: `data/<hash[0:2]>/<hash>.gz`, empty
string when the hash is shorter than two characters. -/
def DataStore (hash : String) : String :=
  if hash.data.length < 2 then ""
  else "data/" ++ String.mk (hash.data.take 2) ++ "/" ++ hash ++ ".gz"

/-- The write protocol of every Save: write the compressed bytes to
`<dest>.partial`, then rename to `dest`. -/
def writeBlobSt (st : St) (dest v : String) : St :=
  stInsert (stErase (stInsert st (dest ++ ".partial") v) (dest ++ ".partial")) dest v

/-- The two filesystem operations the protocol performs, in order. -/
inductive WAct where
  | writeTmp (path : String) (bytes : String)
  | renameTmp (src dest : String)
deriving DecidableEq, Repr

/-- BackupStats from root.go (the fields Save touches). -/
structure BackupStats where
  filesTotal : Nat
  filesArchived : Nat
  dirsTotal : Nat
  dirsArchived : Nat
  bytesArchived : Nat
deriving DecidableEq, Repr

mutual

/-- Entry.Save from store.go.  For a file: count it, skip when the
final blob path exists, otherwise count it as archived (adding the
source size), and — unless dry-run — write compressed bytes to
`<dest>.partial` and rename.  A link is identical except that no bytes
are added to the byte counter (the source increments only
FilesArchived for links).  A directory counts itself, saves all
children first, then applies the same exists-skip / write protocol to
its own listing blob.  `Except.error` is the `invalid hash` failure
when `DataStore` returns the empty path. -/
def saveB (md5 gz : String → String) (dryRun : Bool) :
    Built → St → BackupStats → Except String (St × BackupStats × List WAct)
  | .bfile _ c, st, stats =>
    let stats := { stats with filesTotal := stats.filesTotal + 1 }
    let dest := DataStore (md5 c)
    if dest = "" then .error "invalid hash"
    else if (stLookup st dest).isSome then .ok (st, stats, [])
    else
      let stats := { stats with filesArchived := stats.filesArchived + 1,
                                bytesArchived := stats.bytesArchived + c.data.length }
      if dryRun then .ok (st, stats, [])
      else
        .ok (writeBlobSt st dest (gz c), stats,
          [.writeTmp (dest ++ ".partial") (gz c), .renameTmp (dest ++ ".partial") dest])
  | .blink _ t, st, stats =>
    let stats := { stats with filesTotal := stats.filesTotal + 1 }
    let dest := DataStore (md5 t)
    if dest = "" then .error "invalid hash"
    else if (stLookup st dest).isSome then .ok (st, stats, [])
    else
      let stats := { stats with filesArchived := stats.filesArchived + 1 }
      if dryRun then .ok (st, stats, [])
      else
        .ok (writeBlobSt st dest (gz t), stats,
          [.writeTmp (dest ++ ".partial") (gz t), .renameTmp (dest ++ ".partial") dest])
  | .bdir _ cs, st, stats =>
    let stats := { stats with dirsTotal := stats.dirsTotal + 1 }
    match saveList md5 gz dryRun cs st stats with
    | .error e => .error e
    | .ok (st1, stats1, tr1) =>
      let text := String.mk (bText md5 cs)
      let dest := DataStore (md5 text)
      if dest = "" then .error "invalid hash"
      else if (stLookup st1 dest).isSome then .ok (st1, stats1, tr1)
      else
        let stats2 := { stats1 with dirsArchived := stats1.dirsArchived + 1 }
        if dryRun then .ok (st1, stats2, tr1)
        else
          .ok (writeBlobSt st1 dest (gz text), stats2,
            tr1 ++ [.writeTmp (dest ++ ".partial") (gz text),
                    .renameTmp (dest ++ ".partial") dest])

/-- The children loop at the top of DirectoryEntry.Save. -/
def saveList (md5 gz : String → String) (dryRun : Bool) :
    BuiltList → St → BackupStats → Except String (St × BackupStats × List WAct)
  | .bnil, st, stats => .ok (st, stats, [])
  | .bcons b rest, st, stats =>
    match saveB md5 gz dryRun b st stats with
    | .error e => .error e
    | .ok (st1, stats1, tr1) =>
      match saveList md5 gz dryRun rest st1 stats1 with
      | .error e => .error e
      | .ok (st2, stats2, tr2) => .ok (st2, stats2, tr1 ++ tr2)

end

mutual

/-- All blob digests an entry tree owns: its own blob and (for
directories) those of all descendants. -/
def blobDigests (md5 : String → String) : Built → List String
  | .bfile _ c => [md5 c]
  | .blink _ t => [md5 t]
  | .bdir _ cs => md5 (String.mk (bText md5 cs)) :: blobDigestsList md5 cs

def blobDigestsList (md5 : String → String) : BuiltList → List String
  | .bnil => []
  | .bcons b rest => blobDigests md5 b ++ blobDigestsList md5 rest

end

theorem stLookup_stInsert_self (st : St) (p v : String) :
    stLookup (stInsert st p v) p = some v := by
  simp [stInsert, stLookup]

theorem stLookup_stErase_ne (st : St) (p q : String) (h : q ≠ p) :
    stLookup (stErase st p) q = stLookup st q := by
  induction st with
  | nil => rfl
  | cons kv rest ih =>
    by_cases hk : kv.1 = p
    · simp [stErase, stLookup, hk, Ne.symm h, ih]
    · by_cases hq : kv.1 = q
      · simp [stErase, stLookup, hk, hq, h]
      · simp [stErase, stLookup, hk, hq, ih]

theorem stLookup_stInsert_ne (st : St) (p q v : String) (h : q ≠ p) :
    stLookup (stInsert st p v) q = stLookup st q := by
  simp [stInsert, stLookup, Ne.symm h]
  exact stLookup_stErase_ne st p q h

theorem string_append_ne_self (p s : String) (hs : s.data ≠ []) : p ≠ p ++ s := by
  intro h
  have hdata : p.data = p.data ++ s.data := by
    simpa using congrArg String.data h
  have hlen : p.data.length = p.data.length + s.data.length := by
    conv_lhs => rw [hdata]
    simp
  have hz : s.data.length = 0 := by omega
  exact hs (List.length_eq_zero.mp hz)

theorem stLookup_writeBlobSt_self (st : St) (dest v : String) :
    stLookup (writeBlobSt st dest v) dest = some v :=
  stLookup_stInsert_self _ _ _

theorem stLookup_writeBlobSt_tmp (st : St) (dest v : String) :
    stLookup (writeBlobSt st dest v) (dest ++ ".partial") = none := by
  unfold writeBlobSt
  rw [stLookup_stInsert_ne _ _ _ _ (string_append_ne_self dest ".partial" (by decide)).symm]
  show stLookup (stErase _ (dest ++ ".partial")) (dest ++ ".partial") = none
  generalize stInsert st (dest ++ ".partial") v = st2
  induction st2 with
  | nil => rfl
  | cons kv rest ih =>
    by_cases hk : kv.1 = dest ++ ".partial"
    · simp [stErase, hk, ih]
    · simp [stErase, stLookup, hk, ih]

theorem stLookup_writeBlobSt_other (st : St) (dest v q : String)
    (hq1 : q ≠ dest) (hq2 : q ≠ dest ++ ".partial") :
    stLookup (writeBlobSt st dest v) q = stLookup st q := by
  unfold writeBlobSt
  rw [stLookup_stInsert_ne _ _ _ _ hq1, stLookup_stErase_ne _ _ _ hq2,
    stLookup_stInsert_ne _ _ _ _ hq2]

/-- A path left by an interrupted write: it ends in `.partial`. -/
def isTmp (p : String) : Prop := ".partial".data <:+ p.data

instance : DecidablePred isTmp := fun p => by
  unfold isTmp
  infer_instance

theorem isTmp_append (dest : String) : isTmp (dest ++ ".partial") := by
  unfold isTmp
  rw [String.data_append]
  exact List.suffix_append _ _

theorem getLast?_of_suffix (l1 l2 : List Char) (h : l2 <:+ l1) (hne : l2 ≠ []) :
    l1.getLast? = l2.getLast? := by
  rcases h with ⟨t, rfl⟩
  exact List.getLast?_append_of_ne_nil _ hne

theorem DataStore_ne_empty (h : String) (hlen : ¬ h.data.length < 2) :
    DataStore h ≠ "" := by
  unfold DataStore
  rw [if_neg hlen]
  intro heq
  have := congrArg (fun s => s.data.length) heq
  simp [String.data_append] at this

theorem DataStore_getLast (h : String) (hlen : ¬ h.data.length < 2) :
    (DataStore h).data.getLast? = some 'z' := by
  unfold DataStore
  rw [if_neg hlen]
  rw [show ("data/" ++ String.mk (h.data.take 2) ++ "/" ++ h ++ ".gz").data =
    (("data/" ++ String.mk (h.data.take 2) ++ "/" ++ h).data ++ ".gz".data) by
      simp [String.data_append]]
  rw [List.getLast?_append_of_ne_nil _ (by decide)]
  rfl

theorem DataStore_not_isTmp (h : String) (hlen : ¬ h.data.length < 2) :
    ¬ isTmp (DataStore h) := by
  intro ht
  have hg := getLast?_of_suffix _ _ ht (by decide)
  rw [DataStore_getLast h hlen] at hg
  simp at hg

theorem isSome_writeBlobSt (st : St) (dest v q : String) (hq : ¬ isTmp q)
    (h : (stLookup st q).isSome) : (stLookup (writeBlobSt st dest v) q).isSome := by
  by_cases hd : q = dest
  · subst hd
    rw [stLookup_writeBlobSt_self]
    rfl
  · have ht : q ≠ dest ++ ".partial" := by
      intro hh
      exact hq (hh ▸ isTmp_append dest)
    rw [stLookup_writeBlobSt_other st dest v q hd ht]
    exact h

mutual

theorem saveB_mono (md5 gz : String → String) (dr : Bool) :
    ∀ (b : Built) (st : St) (stats : BackupStats) (st2 : St) (stats2 : BackupStats)
      (tr : List WAct),
      saveB md5 gz dr b st stats = .ok (st2, stats2, tr) →
      ∀ q : String, ¬ isTmp q → (stLookup st q).isSome → (stLookup st2 q).isSome
  | .bfile n c, st, stats, st2, stats2, tr => by
    intro h q hq hv
    simp only [saveB] at h
    split at h
    · cases h
    · split at h
      · cases h
        exact hv
      · split at h
        · cases h
          exact hv
        · cases h
          exact isSome_writeBlobSt _ _ _ _ hq hv
  | .blink n t, st, stats, st2, stats2, tr => by
    intro h q hq hv
    simp only [saveB] at h
    split at h
    · cases h
    · split at h
      · cases h
        exact hv
      · split at h
        · cases h
          exact hv
        · cases h
          exact isSome_writeBlobSt _ _ _ _ hq hv
  | .bdir n cs, st, stats, st2, stats2, tr => by
    intro h q hq hv
    simp only [saveB] at h
    split at h
    · cases h
    next st1 stats1 tr1 hlist =>
      have h1 : (stLookup st1 q).isSome :=
        saveList_mono md5 gz dr cs st _ st1 stats1 tr1 hlist q hq hv
      split at h
      · cases h
      · split at h
        · cases h
          exact h1
        · split at h
          · cases h
            exact h1
          · cases h
            exact isSome_writeBlobSt _ _ _ _ hq h1

theorem saveList_mono (md5 gz : String → String) (dr : Bool) :
    ∀ (bs : BuiltList) (st : St) (stats : BackupStats) (st2 : St) (stats2 : BackupStats)
      (tr : List WAct),
      saveList md5 gz dr bs st stats = .ok (st2, stats2, tr) →
      ∀ q : String, ¬ isTmp q → (stLookup st q).isSome → (stLookup st2 q).isSome
  | .bnil, st, stats, st2, stats2, tr => by
    intro h q hq hv
    simp only [saveList] at h
    cases h
    exact hv
  | .bcons b rest, st, stats, st2, stats2, tr => by
    intro h q hq hv
    simp only [saveList] at h
    split at h
    · cases h
    next st1 stats1 tr1 hb =>
      split at h
      · cases h
      next hrest =>
        cases h
        exact saveList_mono md5 gz dr rest st1 stats1 _ _ _ hrest q hq
          (saveB_mono md5 gz dr b st stats st1 stats1 tr1 hb q hq hv)

end

mutual

theorem saveB_present (md5 gz : String → String)
    (hL : ∀ s : String, ¬ (md5 s).data.length < 2) :
    ∀ (b : Built) (st : St) (stats : BackupStats) (st2 : St) (stats2 : BackupStats)
      (tr : List WAct),
      saveB md5 gz false b st stats = .ok (st2, stats2, tr) →
      ∀ d ∈ blobDigests md5 b, (stLookup st2 (DataStore d)).isSome
  | .bfile n c, st, stats, st2, stats2, tr => by
    intro h d hd
    have hdc : d = md5 c := by simpa [blobDigests] using hd
    subst hdc
    simp only [saveB] at h
    split at h
    · cases h
    · split at h
      next hsome =>
        cases h
        exact hsome
      · split at h
        next hdry => exact absurd hdry (by decide)
        · cases h
          rw [stLookup_writeBlobSt_self]
          rfl
  | .blink n t, st, stats, st2, stats2, tr => by
    intro h d hd
    have hdc : d = md5 t := by simpa [blobDigests] using hd
    subst hdc
    simp only [saveB] at h
    split at h
    · cases h
    · split at h
      next hsome =>
        cases h
        exact hsome
      · split at h
        next hdry => exact absurd hdry (by decide)
        · cases h
          rw [stLookup_writeBlobSt_self]
          rfl
  | .bdir n cs, st, stats, st2, stats2, tr => by
    intro h d hd
    simp only [saveB] at h
    split at h
    · cases h
    next st1 stats1 tr1 hlist =>
      rcases List.mem_cons.mp (by simpa [blobDigests] using hd) with rfl | hdm
      · -- the directory's own digest
        split at h
        next hz =>
          exact absurd hz (DataStore_ne_empty _ (hL _))
        · split at h
          next hsome =>
            cases h
            exact hsome
          · split at h
            next hdry => exact absurd hdry (by decide)
            · cases h
              rw [stLookup_writeBlobSt_self]
              rfl
      · -- a child digest, present after saveList and preserved
        have h1 : (stLookup st1 (DataStore d)).isSome :=
          saveList_present md5 gz hL cs st _ st1 stats1 tr1 hlist d hdm
        have hdnt : ¬ isTmp (DataStore d) :=
          DataStore_not_isTmp d (blobDigestsList_len md5 hL cs d hdm)
        split at h
        · cases h
        · split at h
          · cases h
            exact h1
          · split at h
            next hdry => exact absurd hdry (by decide)
            · cases h
              exact isSome_writeBlobSt _ _ _ _ hdnt h1

theorem saveList_present (md5 gz : String → String)
    (hL : ∀ s : String, ¬ (md5 s).data.length < 2) :
    ∀ (bs : BuiltList) (st : St) (stats : BackupStats) (st2 : St) (stats2 : BackupStats)
      (tr : List WAct),
      saveList md5 gz false bs st stats = .ok (st2, stats2, tr) →
      ∀ d ∈ blobDigestsList md5 bs, (stLookup st2 (DataStore d)).isSome
  | .bnil, st, stats, st2, stats2, tr => by
    intro h d hd
    simp [blobDigestsList] at hd
  | .bcons b rest, st, stats, st2, stats2, tr => by
    intro h d hd
    simp only [saveList] at h
    split at h
    · cases h
    next st1 stats1 tr1 hb =>
      split at h
      · cases h
      next hrest =>
        cases h
        rcases List.mem_append.mp (by simpa [blobDigestsList] using hd) with hdb | hdr
        · have h1 : (stLookup st1 (DataStore d)).isSome :=
            saveB_present md5 gz hL b st stats st1 stats1 tr1 hb d hdb
          exact saveList_mono md5 gz false rest st1 stats1 _ _ _ hrest (DataStore d)
            (DataStore_not_isTmp d (blobDigests_len md5 hL b d hdb)) h1
        · exact saveList_present md5 gz hL rest st1 stats1 _ _ _ hrest d hdr

theorem blobDigests_len (md5 : String → String)
    (hL : ∀ s : String, ¬ (md5 s).data.length < 2) :
    ∀ (b : Built) (d : String), d ∈ blobDigests md5 b → ¬ d.data.length < 2
  | .bfile n c, d => by
    intro hd
    have : d = md5 c := by simpa [blobDigests] using hd
    subst this
    exact hL c
  | .blink n t, d => by
    intro hd
    have : d = md5 t := by simpa [blobDigests] using hd
    subst this
    exact hL t
  | .bdir n cs, d => by
    intro hd
    rcases List.mem_cons.mp (by simpa [blobDigests] using hd) with rfl | hdm
    · exact hL _
    · exact blobDigestsList_len md5 hL cs d hdm

theorem blobDigestsList_len (md5 : String → String)
    (hL : ∀ s : String, ¬ (md5 s).data.length < 2) :
    ∀ (bs : BuiltList) (d : String), d ∈ blobDigestsList md5 bs → ¬ d.data.length < 2
  | .bnil, d => by
    intro hd
    simp [blobDigestsList] at hd
  | .bcons b rest, d => by
    intro hd
    rcases List.mem_append.mp (by simpa [blobDigestsList] using hd) with hdb | hdr
    · exact blobDigests_len md5 hL b d hdb
    · exact blobDigestsList_len md5 hL rest d hdr

end

mutual

theorem saveB_noop (md5 gz : String → String)
    (hL : ∀ s : String, ¬ (md5 s).data.length < 2) (dr : Bool) :
    ∀ (b : Built) (st : St) (stats : BackupStats),
      (∀ d ∈ blobDigests md5 b, (stLookup st (DataStore d)).isSome) →
      ∃ stats2 : BackupStats, saveB md5 gz dr b st stats = .ok (st, stats2, []) ∧
        stats2.filesArchived = stats.filesArchived ∧
        stats2.dirsArchived = stats.dirsArchived ∧
        stats2.bytesArchived = stats.bytesArchived
  | .bfile n c, st, stats => by
    intro hpre
    have hsome : (stLookup st (DataStore (md5 c))).isSome :=
      hpre _ (by simp [blobDigests])
    refine ⟨{ stats with filesTotal := stats.filesTotal + 1 }, ?_, rfl, rfl, rfl⟩
    simp only [saveB]
    rw [if_neg (DataStore_ne_empty _ (hL c)), if_pos hsome]
  | .blink n t, st, stats => by
    intro hpre
    have hsome : (stLookup st (DataStore (md5 t))).isSome :=
      hpre _ (by simp [blobDigests])
    refine ⟨{ stats with filesTotal := stats.filesTotal + 1 }, ?_, rfl, rfl, rfl⟩
    simp only [saveB]
    rw [if_neg (DataStore_ne_empty _ (hL t)), if_pos hsome]
  | .bdir n cs, st, stats => by
    intro hpre
    have hchild : ∀ d ∈ blobDigestsList md5 cs, (stLookup st (DataStore d)).isSome :=
      fun d hd => hpre d (by simp [blobDigests, hd])
    have hself : (stLookup st (DataStore (md5 (String.mk (bText md5 cs))))).isSome :=
      hpre _ (by simp [blobDigests])
    rcases saveList_noop md5 gz hL dr cs st
        { stats with dirsTotal := stats.dirsTotal + 1 } hchild with ⟨stats1, hrun, hf, hdd, hb⟩
    refine ⟨stats1, ?_, hf, hdd, hb⟩
    simp only [saveB]
    rw [hrun]
    show (if DataStore (md5 (String.mk (bText md5 cs))) = "" then _ else _) = _
    rw [if_neg (DataStore_ne_empty _ (hL _)), if_pos hself]

theorem saveList_noop (md5 gz : String → String)
    (hL : ∀ s : String, ¬ (md5 s).data.length < 2) (dr : Bool) :
    ∀ (bs : BuiltList) (st : St) (stats : BackupStats),
      (∀ d ∈ blobDigestsList md5 bs, (stLookup st (DataStore d)).isSome) →
      ∃ stats2 : BackupStats, saveList md5 gz dr bs st stats = .ok (st, stats2, []) ∧
        stats2.filesArchived = stats.filesArchived ∧
        stats2.dirsArchived = stats.dirsArchived ∧
        stats2.bytesArchived = stats.bytesArchived
  | .bnil, st, stats => by
    intro _
    exact ⟨stats, rfl, rfl, rfl, rfl⟩
  | .bcons b rest, st, stats => by
    intro hpre
    rcases saveB_noop md5 gz hL dr b st stats
        (fun d hd => hpre d (by simp [blobDigestsList, hd])) with ⟨stats1, hb1, hf1, hd1, hby1⟩
    rcases saveList_noop md5 gz hL dr rest st stats1
        (fun d hd => hpre d (by simp [blobDigestsList, hd])) with ⟨stats2, hb2, hf2, hd2, hby2⟩
    refine ⟨stats2, ?_, by rw [hf2, hf1], by rw [hd2, hd1], by rw [hby2, hby1]⟩
    simp only [saveList]
    simp [hb1, hb2]

end

/-- Digest stand-in for the C4 counterexample: the file content `x`
hashes to `digA`, everything else (in particular the directory listing)
to `digB`. -/
def md5C4 : String → String := fun s => if s = "x" then digA else digB

/-- Identity stand-in for the gzip compressor in concrete runs. -/
def gzId : String → String := fun s => s

/-- A directory whose own listing blob already exists in the store but
whose child file blob does not. -/
def bC4 : Built := .bdir "top" (.bcons (.bfile "a" "x") .bnil)

/-- A store that holds the directory listing blob of `bC4` (digest
`digB`) but not the child blob (digest `digA`). -/
def stC4 : St := [(DataStore digB, "old")]

/-- C4 counterexample: the claim says that for EVERY entry whose final
blob path exists Save performs no write and leaves the store unchanged.
For a directory entry this is false: DirectoryEntry.Save saves all
children before checking its own path, so with `bC4`'s listing blob
present but its child blob missing, Save writes the child blob and the
store changes. -/
theorem dir_save_not_skip_counterexample :
    (bEntry md5C4 bC4).hash = digB ∧
    (stLookup stC4 (DataStore digB)).isSome = true ∧
    (saveB md5C4 gzId false bC4 stC4 ⟨0, 0, 0, 0, 0⟩).toOption.map (fun r => r.1) =
      some ((DataStore digA, "x") :: stC4) ∧
    ((DataStore digA, "x") :: stC4) ≠ stC4 := by
  refine ⟨by decide, by decide, by decide, by decide⟩

/-- C4 (amended): blob placement is deduplicating and idempotent in the
following sense.  (1) A file or link entry whose final blob path exists
is skipped: Save returns with the store unchanged, an empty write
trace, and only the total counter incremented.  (2) Otherwise the
compressed bytes are written to `<path>.partial` and the file is
renamed onto the final path, after which the final path holds the
compressed bytes and the partial file is gone.  (3) A directory entry
saves its children first (which may write missing child blobs even when
the directory's own blob exists) and skips only its own listing write
when its final path exists: when every blob of the subtree is present,
Save changes nothing and archives nothing.  (4) Hence a second backup
of an unchanged source (the same built tree, so the same root digest)
performs zero writes and archives zero bytes. -/
theorem blob_placement_dedup_idempotent (md5 gz : String → String)
    (hL : ∀ s : String, ¬ (md5 s).data.length < 2) :
    (∀ (dr : Bool) (st : St) (stats : BackupStats) (n c : String),
      (stLookup st (DataStore (md5 c))).isSome →
      saveB md5 gz dr (.bfile n c) st stats =
        .ok (st, { stats with filesTotal := stats.filesTotal + 1 }, [])) ∧
    (∀ (dr : Bool) (st : St) (stats : BackupStats) (n t : String),
      (stLookup st (DataStore (md5 t))).isSome →
      saveB md5 gz dr (.blink n t) st stats =
        .ok (st, { stats with filesTotal := stats.filesTotal + 1 }, [])) ∧
    (∀ (st : St) (stats : BackupStats) (n c : String),
      stLookup st (DataStore (md5 c)) = none →
      saveB md5 gz false (.bfile n c) st stats =
        .ok (writeBlobSt st (DataStore (md5 c)) (gz c),
          { stats with filesTotal := stats.filesTotal + 1,
                       filesArchived := stats.filesArchived + 1,
                       bytesArchived := stats.bytesArchived + c.data.length },
          [.writeTmp (DataStore (md5 c) ++ ".partial") (gz c),
           .renameTmp (DataStore (md5 c) ++ ".partial") (DataStore (md5 c))]) ∧
      stLookup (writeBlobSt st (DataStore (md5 c)) (gz c)) (DataStore (md5 c)) =
        some (gz c) ∧
      stLookup (writeBlobSt st (DataStore (md5 c)) (gz c))
        (DataStore (md5 c) ++ ".partial") = none) ∧
    (∀ (dr : Bool) (st : St) (stats : BackupStats) (b : Built),
      (∀ d ∈ blobDigests md5 b, (stLookup st (DataStore d)).isSome) →
      ∃ stats2 : BackupStats, saveB md5 gz dr b st stats = .ok (st, stats2, []) ∧
        stats2.filesArchived = stats.filesArchived ∧
        stats2.dirsArchived = stats.dirsArchived ∧
        stats2.bytesArchived = stats.bytesArchived) ∧
    (∀ (b : Built) (st0 st1 : St) (stats0 stats1 stats : BackupStats) (tr1 : List WAct),
      saveB md5 gz false b st0 stats0 = .ok (st1, stats1, tr1) →
      ∃ stats2 : BackupStats, saveB md5 gz false b st1 stats = .ok (st1, stats2, []) ∧
        stats2.filesArchived = stats.filesArchived ∧
        stats2.dirsArchived = stats.dirsArchived ∧
        stats2.bytesArchived = stats.bytesArchived) := by
  refine ⟨?_, ?_, ?_, ?_, ?_⟩
  · intro dr st stats n c hsome
    simp only [saveB]
    rw [if_neg (DataStore_ne_empty _ (hL c)), if_pos hsome]
  · intro dr st stats n t hsome
    simp only [saveB]
    rw [if_neg (DataStore_ne_empty _ (hL t)), if_pos hsome]
  · intro st stats n c hnone
    refine ⟨?_, stLookup_writeBlobSt_self _ _ _, stLookup_writeBlobSt_tmp _ _ _⟩
    simp only [saveB]
    rw [if_neg (DataStore_ne_empty _ (hL c))]
    rw [show (stLookup st (DataStore (md5 c))).isSome = false by rw [hnone]; rfl]
    simp
  · intro dr st stats b hpre
    exact saveB_noop md5 gz hL dr b st stats hpre
  · intro b st0 st1 stats0 stats1 stats tr1 hrun
    exact saveB_noop md5 gz hL false b st1 stats
      (saveB_present md5 gz hL b st0 stats0 st1 stats1 tr1 hrun)

/-- Digest stand-in for the C4 witness. -/
def md5W4 : String → String := fun s => if s = "x" then digA else digB

theorem blob_placement_dedup_idempotent_witness :
    saveB md5W4 gzId false (.bfile "a" "x") [(DataStore digA, "x")] ⟨0, 0, 0, 0, 0⟩ =
      .ok ([(DataStore digA, "x")], ⟨1, 0, 0, 0, 0⟩, []) ∧
    (∃ stats2 : BackupStats,
      saveB md5W4 gzId false bC4 ((DataStore digA, "x") :: stC4) ⟨0, 0, 0, 0, 0⟩ =
        .ok ((DataStore digA, "x") :: stC4, stats2, []) ∧
      stats2.filesArchived = 0 ∧ stats2.dirsArchived = 0 ∧ stats2.bytesArchived = 0) := by
  have h := blob_placement_dedup_idempotent md5W4 gzId (by
    intro s
    show ¬ (if s = "x" then digA else digB).data.length < 2
    by_cases hs : s = "x" <;> simp [hs, digA, digB])
  constructor
  · exact h.1 false [(DataStore digA, "x")] ⟨0, 0, 0, 0, 0⟩ "a" "x" (by decide)
  · exact h.2.2.2.1 false ((DataStore digA, "x") :: stC4) ⟨0, 0, 0, 0, 0⟩ bC4 (by decide)

/-- C10: when `os.ReadDir` fails on a source directory, scan swallows
the error (the `return nil` branch): the directory is built with no
children whatever the directory really contains, its listing text is
empty, its digest is the hash of the empty text, and saving it
succeeds, writing the empty-listing blob (so the backup completes with
no error reported for the directory). -/
theorem unreadable_dir_treated_empty (md5 gz : String → String)
    (hL : ∀ s : String, ¬ (md5 s).data.length < 2) :
    (∀ (m : IgnoreM) (name : String) (ch : SrcChildren),
      buildNode md5 m name (.sdir false ch) = .bdir name .bnil) ∧
    (∀ name : String, bEntry md5 (.bdir name .bnil) = ⟨.directory, md5 "", name⟩) ∧
    bText md5 .bnil = [] ∧
    (∀ (st : St) (stats : BackupStats) (n : String),
      stLookup st (DataStore (md5 "")) = none →
      saveB md5 gz false (.bdir n .bnil) st stats =
        .ok (writeBlobSt st (DataStore (md5 "")) (gz ""),
          { stats with dirsTotal := stats.dirsTotal + 1,
                       dirsArchived := stats.dirsArchived + 1 },
          [.writeTmp (DataStore (md5 "") ++ ".partial") (gz ""),
           .renameTmp (DataStore (md5 "") ++ ".partial") (DataStore (md5 ""))])) := by
  refine ⟨fun m name ch => by simp [buildNode], fun name => rfl, rfl, ?_⟩
  intro st stats n hnone
  simp only [saveB, saveList]
  rw [show String.mk (bText md5 .bnil) = "" from rfl]
  rw [if_neg (DataStore_ne_empty _ (hL ""))]
  rw [show (stLookup st (DataStore (md5 ""))).isSome = false by rw [hnone]; rfl]
  simp

theorem unreadable_dir_treated_empty_witness :
    buildNode md5W4 (.top []) "d" (.sdir false (.cons "big" (.sfile "data") .nil)) =
      .bdir "d" .bnil ∧
    saveB md5W4 gzId false (.bdir "d" .bnil) [] ⟨0, 0, 0, 0, 0⟩ =
      .ok (writeBlobSt [] (DataStore (md5W4 "")) (gzId ""), ⟨0, 0, 1, 1, 0⟩,
        [.writeTmp (DataStore (md5W4 "") ++ ".partial") (gzId ""),
         .renameTmp (DataStore (md5W4 "") ++ ".partial") (DataStore (md5W4 ""))]) := by
  have h := unreadable_dir_treated_empty md5W4 gzId (by
    intro s
    show ¬ (if s = "x" then digA else digB).data.length < 2
    by_cases hs : s = "x" <;> simp [hs, digA, digB])
  exact ⟨h.1 (.top []) "d" (.cons "big" (.sfile "data") .nil),
    h.2.2.2 [] ⟨0, 0, 0, 0, 0⟩ "d" (by decide)⟩

/-! Embedding of the store-level view used by GC and check: the `data/`
shard tree (blobs as files), the `snapshots/` tree (head files inside
project directories, plus possible files directly under `snapshots/` —
the legacy layout), AllBackupRoots, GetReachableBlobs, GetAllBlobs,
FindUnreferenced and Prune. -/

/-- The content of one stored `.gz` file: either a valid gzip stream of
`payload` (what `gzip.NewReader` accepts) or bytes it rejects. -/
inductive BlobBytes where
  | gzB (payload : String)
  | rawB (bytes : String)
deriving DecidableEq, Repr

/-- One file in a shard directory: its content and the size `os.Stat`
reports for it. -/
structure BlobFile where
  content : BlobBytes
  size : Nat
deriving DecidableEq, Repr

/-- The `data/` tree: shard directory name ↦ its files (name ↦ file). -/
abbrev DataDir := List (String × List (String × BlobFile))

def afind {α : Type} : List (String × α) → String → Option α
  | [], _ => none
  | kv :: rest, q => if kv.1 = q then some kv.2 else afind rest q

/-- Opening the blob of a digest at `DataStore hash`: the file
`<hash>.gz` inside the shard named by the first two characters. -/
def blobLookup (dd : DataDir) (hash : String) : Option BlobFile :=
  if hash.data.length < 2 then none
  else
    match afind dd (String.mk (hash.data.take 2)) with
    | none => none
    | some files => afind files (hash ++ ".gz")

def endsGz (nm : String) : Bool := decide (".gz".data <:+ nm.data)

/-- `strings.TrimSuffix(name, ".gz")` for a name that ends in `.gz`. -/
def trimGz (nm : String) : String := String.mk (nm.data.take (nm.data.length - 3))

/-- GetAllBlobs from unreferenced.go: for every shard directory, every
file whose name ends in `.gz`, stripped of the suffix. -/
def GetAllBlobs (dd : DataDir) : List String :=
  dd.foldr
    (fun shard acc =>
      (shard.2.filterMap (fun f => if endsGz f.1 then some (trimGz f.1) else none)) ++ acc)
    []

/-- One entry of the snapshots directory tree (depth 2: head files may
sit directly under `snapshots/` — the legacy layout — or inside a
project subdirectory). -/
inductive SnapE where
  | fileE (name content : String)
  | dirE (name : String) (entries : List SnapE)

/-- The loop body of AllBackupRoots over one project directory:
subdirectories are skipped, and NewBackupRoot accepts a file whose name
parses as a timestamp (`tsOk`, standing for the stdlib
`time.ParseInLocation "060102-150405"`) and whose content is nonempty
after trimming; the head's digest is the trimmed content. -/
def rootsOfProject (tsOk : String → Bool) : List SnapE → List String
  | [] => []
  | .fileE nm content :: rest =>
    let hash := String.mk (trimSpaceChars content.data)
    if tsOk nm ∧ hash ≠ "" then hash :: rootsOfProject tsOk rest
    else rootsOfProject tsOk rest
  | .dirE _ _ :: rest => rootsOfProject tsOk rest

/-- AllBackupRoots from internal/backup/root.go (the chronological sort
is omitted: every property proved below is order-insensitive): iterate
the entries of `snapshots/`; only for entries that are directories,
collect the valid head files inside. -/
def AllBackupRoots (tsOk : String → Bool) : List SnapE → List String
  | [] => []
  | .fileE _ _ :: rest => AllBackupRoots tsOk rest
  | .dirE _ sub :: rest => rootsOfProject tsOk sub ++ AllBackupRoots tsOk rest

/-- Insert into a list-set. -/
def sIns (l : List String) (x : String) : List String :=
  if x ∈ l then l else x :: l

/-- The two shared maps of GetReachableBlobs. -/
structure ReachSt where
  reachable : List String
  visitedDirs : List String
deriving DecidableEq, Repr

mutual

/-- traverseReachable from unreferenced.go, with fuel (the Go loop
terminates because visitedDirs grows; fuel is a modelling artifact and
every theorem is conditioned on a successful run): mark visited, open
the blob (absent → return nil; not gzip → error), and walk its lines. -/
def traverseReachable (dd : DataDir) : Nat → String → ReachSt → Except String ReachSt
  | 0, _, _ => .error "fuel exhausted"
  | f + 1, hash, st =>
    let st1 : ReachSt := { st with visitedDirs := sIns st.visitedDirs hash }
    match blobLookup dd hash with
    | none => .ok st1
    | some ⟨.rawB _, _⟩ => .error "failed to read blob"
    | some ⟨.gzB payload, _⟩ => reachLines dd f (scanLines payload.data) st1

/-- The scanner loop of traverseReachable: every line of at least 36
bytes marks `line[2:34]` reachable, and a `D` line whose digest is not
yet visited is traversed recursively. -/
def reachLines (dd : DataDir) : Nat → List (List Char) → ReachSt → Except String ReachSt
  | 0, _, _ => .error "fuel exhausted"
  | _ + 1, [], st => .ok st
  | f + 1, line :: rest, st =>
    match reachParseLine line with
    | none => reachLines dd f rest st
    | some (t, child) =>
      let st1 : ReachSt := { st with reachable := sIns st.reachable child }
      if t = 'D' ∧ ¬ child ∈ st1.visitedDirs then
        match traverseReachable dd f child st1 with
        | .error e => .error e
        | .ok st2 => reachLines dd f rest st2
      else reachLines dd f rest st1

end

/-- markReachable from unreferenced.go: mark the digest, then traverse
it unless already visited. -/
def markReachable (dd : DataDir) (fuel : Nat) (hash : String) (st : ReachSt) :
    Except String ReachSt :=
  let st1 : ReachSt := { st with reachable := sIns st.reachable hash }
  if hash ∈ st1.visitedDirs then .ok st1
  else traverseReachable dd fuel hash st1

def markRoots (dd : DataDir) (fuel : Nat) : List String → ReachSt → Except String ReachSt
  | [], st => .ok st
  | h :: rest, st =>
    match markReachable dd fuel h st with
    | .error e => .error e
    | .ok st2 => markRoots dd fuel rest st2

/-- GetReachableBlobs from unreferenced.go: enumerate all backup roots
(via AllBackupRoots) and mark each root's transitive closure.  A root
whose head file cannot be read is already dropped by the enumeration
model; a traversal error aborts. -/
def GetReachableBlobs (dd : DataDir) (snaps : List SnapE) (tsOk : String → Bool)
    (fuel : Nat) : Except String (List String) :=
  match markRoots dd fuel (AllBackupRoots tsOk snaps) ⟨[], []⟩ with
  | .error e => .error e
  | .ok st => .ok st.reachable

/-- FindUnreferenced from unreferenced.go: every existing blob digest
that is not reachable. -/
def FindUnreferenced (dd : DataDir) (snaps : List SnapE) (tsOk : String → Bool)
    (fuel : Nat) : Except String (List String) :=
  match GetReachableBlobs dd snaps tsOk fuel with
  | .error e => .error e
  | .ok reach => .ok ((GetAllBlobs dd).filter (fun h => ¬ h ∈ reach))

/-- Delete one file (by name) from a directory listing. -/
def removeFileEntry : List (String × BlobFile) → String → List (String × BlobFile)
  | [], _ => []
  | f :: rest, key =>
    if f.1 = key then removeFileEntry rest key else f :: removeFileEntry rest key

/-- `os.Remove` of a blob's file from its shard. -/
def removeBlobFile (dd : DataDir) (hash : String) : DataDir :=
  dd.map (fun shard =>
    if shard.1 = String.mk (hash.data.take 2) then
      (shard.1, removeFileEntry shard.2 (hash ++ ".gz"))
    else shard)

structure PruneStats where
  blobsRemoved : Nat
  bytesRemoved : Nat
deriving DecidableEq, Repr

/-- The loop of Prune (util.go): for each unreferenced digest, stat the
blob file (missing → skip), then — unless dry-run — remove it, aborting
with the stats so far when removal fails (`failRemove` marks the paths
whose `os.Remove` errors); count and size every processed blob. -/
def pruneLoop (failRemove : String → Bool) :
    List String → DataDir → PruneStats → Bool → PruneStats × Option String × DataDir
  | [], dd, stats, _ => (stats, none, dd)
  | h :: rest, dd, stats, dryRun =>
    match blobLookup dd h with
    | none => pruneLoop failRemove rest dd stats dryRun
    | some f =>
      if ¬ dryRun ∧ failRemove (DataStore h) then
        (stats, some "failed to remove unreferenced blob", dd)
      else
        pruneLoop failRemove rest (if dryRun then dd else removeBlobFile dd h)
          ⟨stats.blobsRemoved + 1, stats.bytesRemoved + f.size⟩ dryRun

/-- Prune from util.go: find the unreferenced digests and run the
deletion loop over them. -/
def Prune (dd : DataDir) (snaps : List SnapE) (tsOk : String → Bool) (fuel : Nat)
    (failRemove : String → Bool) (dryRun : Bool) :
    Except String (PruneStats × Option String × DataDir) :=
  match FindUnreferenced dd snaps tsOk fuel with
  | .error e => .error e
  | .ok unref => .ok (pruneLoop failRemove unref dd ⟨0, 0⟩ dryRun)

/-- Timestamp validation stand-in for the C1 store: exactly the name of
the legacy head parses (models `time.ParseInLocation "060102-150405"`
succeeding on it). -/
def tsOkC1 : String → Bool := fun n => n = "250101-120000"

/-- A snapshots directory holding one valid head file DIRECTLY under
`snapshots/` (the legacy layout for a source with no project name,
which is where cmd/backup/main.go writes heads when ProjectName is
empty). -/
def snapsC1 : List SnapE := [.fileE "250101-120000" (digA ++ "\n")]

/-- A data tree holding exactly the blob the legacy head points at. -/
def ddC1 : DataDir := [("aa", [(digA ++ ".gz", ⟨.gzB "", 20⟩)])]

/-- C1: the claim (and the spec's safety rule) requires reachability to
see every head under `snapshots/**`, including heads directly under
`snapshots/` in the legacy layout.  AllBackupRoots iterates the entries
of `snapshots/` and uses only those that are directories, so a
perfectly valid legacy head file — with a parsable timestamp name and a
nonempty digest — contributes nothing: top-level head files are
discarded wholesale (first conjunct, for every store), the identical
file inside a project directory would be enumerated, reachability over
the legacy store is empty, its blob is reported unreferenced, and Prune
deletes it. -/
theorem legacy_heads_invisible_to_gc :
    (∀ (tsOk : String → Bool) (nm c : String) (rest : List SnapE),
      AllBackupRoots tsOk (SnapE.fileE nm c :: rest) = AllBackupRoots tsOk rest) ∧
    tsOkC1 "250101-120000" = true ∧
    String.mk (trimSpaceChars (digA ++ "\n").data) = digA ∧
    digA ≠ "" ∧
    rootsOfProject tsOkC1 [.fileE "250101-120000" (digA ++ "\n")] = [digA] ∧
    AllBackupRoots tsOkC1 snapsC1 = [] ∧
    GetReachableBlobs ddC1 snapsC1 tsOkC1 100 = .ok [] ∧
    FindUnreferenced ddC1 snapsC1 tsOkC1 100 = .ok [digA] ∧
    (Prune ddC1 snapsC1 tsOkC1 100 (fun _ => false) false).toOption.map
      (fun r => r.1) = some ⟨1, 20⟩ ∧
    (Prune ddC1 snapsC1 tsOkC1 100 (fun _ => false) false).toOption.map
      (fun r => r.2.1) = some none ∧
    (Prune ddC1 snapsC1 tsOkC1 100 (fun _ => false) false).toOption.map
      (fun r => r.2.2) = some [("aa", [])] := by
  refine ⟨fun _ _ _ _ => rfl, by decide, by decide, by decide, by decide, by decide,
    by decide, by decide, by decide, by decide, by decide⟩

/-- The sizes of the blobs of `l` that are present on disk, in order. -/
def presentsOf (dd : DataDir) (l : List String) : List Nat :=
  l.filterMap (fun h => (blobLookup dd h).map (fun f => f.size))

theorem presentsOf_congr (d1 d2 : DataDir) :
    ∀ l : List String, (∀ x ∈ l, blobLookup d1 x = blobLookup d2 x) →
      presentsOf d1 l = presentsOf d2 l
  | [], _ => rfl
  | h :: rest, hx => by
    unfold presentsOf
    simp only [List.filterMap_cons]
    rw [hx h (List.mem_cons_self h rest)]
    have := presentsOf_congr d1 d2 rest (fun x hm => hx x (List.mem_cons_of_mem h hm))
    unfold presentsOf at this
    rw [this]

theorem afind_removeFileEntry_self (key : String) :
    ∀ files : List (String × BlobFile),
      afind (removeFileEntry files key) key = none
  | [] => rfl
  | f :: rest => by
    by_cases hk : f.1 = key
    · rw [show removeFileEntry (f :: rest) key = removeFileEntry rest key by
        simp [removeFileEntry, hk]]
      exact afind_removeFileEntry_self key rest
    · rw [show removeFileEntry (f :: rest) key = f :: removeFileEntry rest key by
        simp [removeFileEntry, hk]]
      show (if f.1 = key then some f.2 else afind (removeFileEntry rest key) key) = none
      rw [if_neg hk]
      exact afind_removeFileEntry_self key rest

theorem afind_removeFileEntry_other (key q : String) (hq : q ≠ key) :
    ∀ files : List (String × BlobFile),
      afind (removeFileEntry files key) q = afind files q
  | [] => rfl
  | f :: rest => by
    by_cases hk : f.1 = key
    · have hfq : ¬ f.1 = q := by rw [hk]; exact fun h => hq h.symm
      rw [show removeFileEntry (f :: rest) key = removeFileEntry rest key by
        simp [removeFileEntry, hk]]
      rw [show afind (f :: rest) q = afind rest q by simp [afind, hfq]]
      exact afind_removeFileEntry_other key q hq rest
    · rw [show removeFileEntry (f :: rest) key = f :: removeFileEntry rest key by
        simp [removeFileEntry, hk]]
      by_cases hfq : f.1 = q
      · simp [afind, hfq]
      · rw [show afind (f :: removeFileEntry rest key) q =
          afind (removeFileEntry rest key) q by simp [afind, hfq]]
        rw [show afind (f :: rest) q = afind rest q by simp [afind, hfq]]
        exact afind_removeFileEntry_other key q hq rest

theorem afind_removeBlobFile (h k : String) :
    ∀ dd : DataDir,
      afind (removeBlobFile dd h) k =
        match afind dd k with
        | none => none
        | some files =>
          some (if k = String.mk (h.data.take 2) then
            removeFileEntry files (h ++ ".gz") else files)
  | [] => rfl
  | shard :: rest => by
    by_cases hs : shard.1 = String.mk (h.data.take 2)
    · by_cases hk : shard.1 = k
      · have hks : k = String.mk (h.data.take 2) := by rw [← hk]; exact hs
        simp only [removeBlobFile, List.map_cons, if_pos hs]
        simp [afind, hk, hks]
      · simp only [removeBlobFile, List.map_cons, if_pos hs]
        rw [show afind ((shard.1, removeFileEntry shard.2 (h ++ ".gz")) :: rest.map _) k =
          afind (rest.map fun shard =>
            if shard.1 = String.mk (h.data.take 2) then
              (shard.1, removeFileEntry shard.2 (h ++ ".gz"))
            else shard) k by simp [afind, hk]]
        rw [show afind (shard :: rest) k = afind rest k by simp [afind, hk]]
        exact afind_removeBlobFile h k rest
    · by_cases hk : shard.1 = k
      · have hknot : ¬ k = String.mk (h.data.take 2) := by rw [← hk]; exact hs
        simp only [removeBlobFile, List.map_cons, if_neg hs]
        simp [afind, hk, hknot]
      · simp only [removeBlobFile, List.map_cons, if_neg hs]
        rw [show afind (shard :: rest.map _) k = afind (rest.map fun shard =>
            if shard.1 = String.mk (h.data.take 2) then
              (shard.1, removeFileEntry shard.2 (h ++ ".gz"))
            else shard) k by simp [afind, hk]]
        rw [show afind (shard :: rest) k = afind rest k by simp [afind, hk]]
        exact afind_removeBlobFile h k rest

theorem append_gz_injective (a b : String) (h : a ++ ".gz" = b ++ ".gz") : a = b := by
  have hd : a.data ++ ".gz".data = b.data ++ ".gz".data := by
    simpa [String.data_append] using congrArg String.data h
  rcases List.append_inj' hd rfl with ⟨h1, -⟩
  cases a
  cases b
  exact congrArg String.mk h1

theorem blobLookup_removeBlobFile_self (dd : DataDir) (h : String) :
    blobLookup (removeBlobFile dd h) h = none := by
  unfold blobLookup
  by_cases hl : h.data.length < 2
  · rw [if_pos hl]
  · rw [if_neg hl]
    rw [afind_removeBlobFile h (String.mk (h.data.take 2)) dd]
    cases afind dd (String.mk (h.data.take 2)) with
    | none => rfl
    | some files =>
      show afind (if String.mk (h.data.take 2) = String.mk (h.data.take 2) then
        removeFileEntry files (h ++ ".gz") else files) (h ++ ".gz") = none
      rw [if_pos rfl]
      exact afind_removeFileEntry_self _ files

theorem blobLookup_removeBlobFile_ne (dd : DataDir) (h h2 : String) (hne : h2 ≠ h) :
    blobLookup (removeBlobFile dd h) h2 = blobLookup dd h2 := by
  unfold blobLookup
  by_cases hl : h2.data.length < 2
  · rw [if_pos hl, if_pos hl]
  · rw [if_neg hl, if_neg hl]
    rw [afind_removeBlobFile h (String.mk (h2.data.take 2)) dd]
    cases afind dd (String.mk (h2.data.take 2)) with
    | none => rfl
    | some files =>
      show afind (if String.mk (h2.data.take 2) = String.mk (h.data.take 2) then
        removeFileEntry files (h ++ ".gz") else files) (h2 ++ ".gz") = afind files (h2 ++ ".gz")
      by_cases hsh : String.mk (h2.data.take 2) = String.mk (h.data.take 2)
      · rw [if_pos hsh]
        exact afind_removeFileEntry_other _ _
          (fun hq => hne (append_gz_injective h2 h hq)) files
      · rw [if_neg hsh]

theorem pruneLoop_dry (fR : String → Bool) :
    ∀ (l : List String) (dd : DataDir) (stats : PruneStats),
      pruneLoop fR l dd stats true =
        (⟨stats.blobsRemoved + (presentsOf dd l).length,
          stats.bytesRemoved + (presentsOf dd l).sum⟩, none, dd)
  | [], dd, stats => by simp [pruneLoop, presentsOf]
  | h :: rest, dd, stats => by
    cases hb : blobLookup dd h with
    | none =>
      simp only [pruneLoop, hb]
      rw [pruneLoop_dry fR rest dd stats]
      simp [presentsOf, List.filterMap_cons, hb]
    | some f =>
      simp only [pruneLoop, hb]
      rw [if_neg (by simp)]
      rw [if_pos trivial]
      rw [pruneLoop_dry fR rest dd ⟨stats.blobsRemoved + 1, stats.bytesRemoved + f.size⟩]
      simp [presentsOf, List.filterMap_cons, hb]
      constructor <;> omega

theorem pruneLoop_abort (fR : String → Bool) (d : String) (rest : List String)
    (dd : DataDir) (stats : PruneStats) (file : BlobFile)
    (hlook : blobLookup dd d = some file) (hfail : fR (DataStore d) = true) :
    pruneLoop fR (d :: rest) dd stats false =
      (stats, some "failed to remove unreferenced blob", dd) := by
  simp only [pruneLoop, hlook]
  rw [if_pos (by simp [hfail])]

theorem pruneLoop_nofail (fR : String → Bool) :
    ∀ (l : List String) (dd : DataDir) (stats : PruneStats),
      l.Nodup → (∀ h ∈ l, fR (DataStore h) = false) →
      ∃ dd2 : DataDir,
        pruneLoop fR l dd stats false =
          (⟨stats.blobsRemoved + (presentsOf dd l).length,
            stats.bytesRemoved + (presentsOf dd l).sum⟩, none, dd2) ∧
        (∀ h ∈ l, blobLookup dd2 h = none) ∧
        (∀ q : String, blobLookup dd q = none → blobLookup dd2 q = none)
  | [], dd, stats => by
    intro _ _
    refine ⟨dd, by simp [pruneLoop, presentsOf], by simp, fun q hq => hq⟩
  | h :: rest, dd, stats => by
    intro hnd hfail
    have hndr : rest.Nodup := (List.nodup_cons.mp hnd).2
    have hhr : h ∉ rest := (List.nodup_cons.mp hnd).1
    have hfr : ∀ x ∈ rest, fR (DataStore x) = false :=
      fun x hx => hfail x (List.mem_cons_of_mem h hx)
    cases hb : blobLookup dd h with
    | none =>
      rcases pruneLoop_nofail fR rest dd stats hndr hfr with ⟨dd2, hrun, habs, hmono⟩
      refine ⟨dd2, ?_, ?_, hmono⟩
      · simp only [pruneLoop, hb]
        rw [hrun]
        simp [presentsOf, List.filterMap_cons, hb]
      · intro x hx
        rcases List.mem_cons.mp hx with rfl | hx2
        · exact hmono x hb
        · exact habs x hx2
    | some f =>
      have hlookr : ∀ x ∈ rest, blobLookup (removeBlobFile dd h) x = blobLookup dd x :=
        fun x hx => blobLookup_removeBlobFile_ne dd h x (fun he => hhr (he ▸ hx))
      rcases pruneLoop_nofail fR rest (removeBlobFile dd h)
          ⟨stats.blobsRemoved + 1, stats.bytesRemoved + f.size⟩ hndr hfr
        with ⟨dd2, hrun, habs, hmono⟩
      refine ⟨dd2, ?_, ?_, ?_⟩
      · simp only [pruneLoop, hb]
        rw [if_neg (by simp [hfail h (List.mem_cons_self h rest)])]
        rw [if_neg (by simp)]
        rw [hrun]
        rw [presentsOf_congr (removeBlobFile dd h) dd rest hlookr]
        simp [presentsOf, List.filterMap_cons, hb]
        constructor <;> omega
      · intro x hx
        rcases List.mem_cons.mp hx with rfl | hx2
        · exact hmono x (blobLookup_removeBlobFile_self dd x)
        · exact habs x hx2
      · intro q hq
        exact hmono q (by
          by_cases hqe : q = h
          · subst hqe
            exact blobLookup_removeBlobFile_self dd q
          · rw [blobLookup_removeBlobFile_ne dd h q hqe]
            exact hq)

/-- C2: FindUnreferenced returns exactly the set difference between the
on-disk blobs and the reachable set (every `.gz` digest in the data
shards that is not reachable); Prune feeds that set into the deletion
loop; with dry-run set no file is deleted (the store comes back
unchanged) while sizes and counts of the present blobs are still
accumulated; without dry-run a deletion failure aborts immediately with
the stats accumulated so far; and a failure-free run removes exactly
the present unreferenced blobs, accumulating (count, bytes). -/
theorem find_unreferenced_and_prune :
    (∀ (dd : DataDir) (snaps : List SnapE) (tsOk : String → Bool) (fuel : Nat)
        (reach : List String) (fR : String → Bool) (dr : Bool),
      GetReachableBlobs dd snaps tsOk fuel = .ok reach →
      FindUnreferenced dd snaps tsOk fuel =
        .ok ((GetAllBlobs dd).filter (fun x => ¬ x ∈ reach)) ∧
      (∀ d, d ∈ (GetAllBlobs dd).filter (fun x => ¬ x ∈ reach) ↔
        d ∈ GetAllBlobs dd ∧ ¬ d ∈ reach) ∧
      Prune dd snaps tsOk fuel fR dr =
        .ok (pruneLoop fR ((GetAllBlobs dd).filter (fun x => ¬ x ∈ reach)) dd ⟨0, 0⟩ dr)) ∧
    (∀ (fR : String → Bool) (l : List String) (dd : DataDir) (stats : PruneStats),
      pruneLoop fR l dd stats true =
        (⟨stats.blobsRemoved + (presentsOf dd l).length,
          stats.bytesRemoved + (presentsOf dd l).sum⟩, none, dd)) ∧
    (∀ (fR : String → Bool) (d : String) (rest : List String) (dd : DataDir)
        (stats : PruneStats) (file : BlobFile),
      blobLookup dd d = some file → fR (DataStore d) = true →
      pruneLoop fR (d :: rest) dd stats false =
        (stats, some "failed to remove unreferenced blob", dd)) ∧
    (∀ (fR : String → Bool) (l : List String) (dd : DataDir) (stats : PruneStats),
      l.Nodup → (∀ h ∈ l, fR (DataStore h) = false) →
      ∃ dd2 : DataDir,
        pruneLoop fR l dd stats false =
          (⟨stats.blobsRemoved + (presentsOf dd l).length,
            stats.bytesRemoved + (presentsOf dd l).sum⟩, none, dd2) ∧
        (∀ h ∈ l, blobLookup dd2 h = none) ∧
        (∀ q : String, blobLookup dd q = none → blobLookup dd2 q = none)) := by
  refine ⟨?_, pruneLoop_dry, pruneLoop_abort, pruneLoop_nofail⟩
  intro dd snaps tsOk fuel reach fR dr hr
  refine ⟨?_, ?_, ?_⟩
  · unfold FindUnreferenced
    rw [hr]
  · intro d
    simp [List.mem_filter]
  · unfold Prune FindUnreferenced
    rw [hr]

theorem find_unreferenced_and_prune_witness :
    FindUnreferenced ddC1 [] tsOkC1 10 = .ok [digA] ∧
    pruneLoop (fun _ => false) [digA] ddC1 ⟨0, 0⟩ true =
      (⟨0 + (presentsOf ddC1 [digA]).length, 0 + (presentsOf ddC1 [digA]).sum⟩,
        none, ddC1) ∧
    pruneLoop (fun _ => true) [digA] ddC1 ⟨0, 0⟩ false =
      (⟨0, 0⟩, some "failed to remove unreferenced blob", ddC1) ∧
    (∃ dd2 : DataDir,
      pruneLoop (fun _ => false) [digA] ddC1 ⟨0, 0⟩ false =
        (⟨0 + (presentsOf ddC1 [digA]).length, 0 + (presentsOf ddC1 [digA]).sum⟩,
          none, dd2) ∧
      (∀ h ∈ [digA], blobLookup dd2 h = none) ∧
      (∀ q : String, blobLookup ddC1 q = none → blobLookup dd2 q = none)) := by
  have h := find_unreferenced_and_prune
  refine ⟨?_, h.2.1 (fun _ => false) [digA] ddC1 ⟨0, 0⟩, ?_, ?_⟩
  · have h1 := (h.1 ddC1 [] tsOkC1 10 [] (fun _ => false) false (by decide)).1
    rw [h1]
    decide
  · exact h.2.2.1 (fun _ => true) digA [] ddC1 ⟨0, 0⟩ ⟨.gzB "", 20⟩ (by decide) rfl
  · exact h.2.2.2 (fun _ => false) [digA] ddC1 ⟨0, 0⟩ (by decide) (by decide)

/-! Embedding of the integrity checker (check.go): verifyBlob,
verifyBlobHash and traverseDirectory. -/

/-- One collected check error (the fmt.Errorf kinds of check.go).  For
a corrupt blob, `gzipErr = true` is the `gzip error` case of
verifyBlobHash and `gzipErr = false` the digest mismatch. -/
inductive CheckErr where
  | missingBlob (hash : String)
  | emptyBlob (hash : String)
  | corruptBlob (hash : String) (gzipErr : Bool)
  | dirReadErr (hash : String)
deriving DecidableEq, Repr

/-- The shared maps and collected error list of Verify. -/
structure CheckSt where
  verifiedBlobs : List String
  traversedDirs : List String
  errs : List CheckErr
deriving DecidableEq, Repr

/-- verifyBlobHash from check.go: open and decompress the blob and
compare the recomputed digest; a gzip failure or a mismatch is a
CorruptBlob-kind error. -/
def verifyBlobHash (md5 : String → String) (dd : DataDir) (hash : String) :
    Option CheckErr :=
  match blobLookup dd hash with
  | none => some (.missingBlob hash)
  | some ⟨.rawB _, _⟩ => some (.corruptBlob hash true)
  | some ⟨.gzB p, _⟩ =>
    if md5 p ≠ hash then some (.corruptBlob hash false) else none

/-- verifyBlob from check.go: skip already-verified digests; a missing
file is MissingBlob, a zero-size file EmptyBlob; only with deep set is
the content decompressed and re-hashed. -/
def verifyBlob (md5 : String → String) (dd : DataDir) (deep : Bool) (hash : String)
    (st : CheckSt) : CheckSt :=
  if hash ∈ st.verifiedBlobs then st
  else
    match blobLookup dd hash with
    | none =>
      { st with errs := st.errs ++ [.missingBlob hash],
                verifiedBlobs := sIns st.verifiedBlobs hash }
    | some f =>
      if f.size = 0 then
        { st with errs := st.errs ++ [.emptyBlob hash],
                  verifiedBlobs := sIns st.verifiedBlobs hash }
      else if deep then
        match verifyBlobHash md5 dd hash with
        | some e =>
          { st with errs := st.errs ++ [e],
                    verifiedBlobs := sIns st.verifiedBlobs hash }
        | none => { st with verifiedBlobs := sIns st.verifiedBlobs hash }
      else { st with verifiedBlobs := sIns st.verifiedBlobs hash }

mutual

/-- traverseDirectory from check.go, with fuel: skip traversed digests,
open the blob (an open failure is returned as the error component —
which the recursive call site deliberately ignores), report a gzip
failure as a collected error without descending, and otherwise walk the
lines, verifying every child and recursing into `D` children. -/
def traverseDirectory (md5 : String → String) (dd : DataDir) (deep : Bool) :
    Nat → String → CheckSt → CheckSt × Option String
  | 0, _, st => (st, some "fuel exhausted")
  | f + 1, hash, st =>
    if hash ∈ st.traversedDirs then (st, none)
    else
      let st1 : CheckSt := { st with traversedDirs := sIns st.traversedDirs hash }
      match blobLookup dd hash with
      | none => (st1, some "open failed")
      | some ⟨.rawB _, _⟩ => ({ st1 with errs := st1.errs ++ [.dirReadErr hash] }, none)
      | some ⟨.gzB p, _⟩ => travLines md5 dd deep f (scanLines p.data) st1

/-- The line loop of traverseDirectory. -/
def travLines (md5 : String → String) (dd : DataDir) (deep : Bool) :
    Nat → List (List Char) → CheckSt → CheckSt × Option String
  | 0, _, st => (st, some "fuel exhausted")
  | _ + 1, [], st => (st, none)
  | f + 1, line :: rest, st =>
    match reachParseLine line with
    | none => travLines md5 dd deep f rest st
    | some (t, child) =>
      let st1 := verifyBlob md5 dd deep child st
      if t = 'D' then
        travLines md5 dd deep f rest (traverseDirectory md5 dd deep f child st1).1
      else travLines md5 dd deep f rest st1

end

/-- C9: replace a stored blob's bytes with non-empty non-gzip data.
The shallow check's verifyBlob still passes on it (a leaf file blob
produces no error: only existence and size are checked), the directory
traversal must fail on it (gzip open fails, one error is collected and
nothing below is visited), and the deep verifyBlob must fail with a
CorruptBlob-kind gzip error for that digest. -/
theorem corrupt_blob_check (md5 : String → String) (dd : DataDir) (hash : String)
    (st : CheckSt) (b : String) (sz : Nat)
    (hlook : blobLookup dd hash = some ⟨.rawB b, sz⟩) (hsz : sz ≠ 0) :
    (hash ∉ st.verifiedBlobs →
      verifyBlob md5 dd false hash st =
        { st with verifiedBlobs := sIns st.verifiedBlobs hash }) ∧
    (∀ fuel : Nat, hash ∉ st.traversedDirs →
      traverseDirectory md5 dd false (fuel + 1) hash st =
        ({ st with traversedDirs := sIns st.traversedDirs hash,
                   errs := st.errs ++ [.dirReadErr hash] }, none) ∧
      traverseDirectory md5 dd true (fuel + 1) hash st =
        ({ st with traversedDirs := sIns st.traversedDirs hash,
                   errs := st.errs ++ [.dirReadErr hash] }, none)) ∧
    verifyBlobHash md5 dd hash = some (.corruptBlob hash true) ∧
    (hash ∉ st.verifiedBlobs →
      verifyBlob md5 dd true hash st =
        { st with errs := st.errs ++ [.corruptBlob hash true],
                  verifiedBlobs := sIns st.verifiedBlobs hash }) := by
  have hvh : verifyBlobHash md5 dd hash = some (.corruptBlob hash true) := by
    unfold verifyBlobHash
    rw [hlook]
  refine ⟨?_, ?_, hvh, ?_⟩
  · intro hnv
    unfold verifyBlob
    rw [if_neg hnv, hlook]
    dsimp only
    rw [if_neg hsz]
    rfl
  · intro fuel hnt
    constructor <;>
      · show (if hash ∈ st.traversedDirs then _ else _) = _
        rw [if_neg hnt]
        simp only [hlook]
  · intro hnv
    unfold verifyBlob
    rw [if_neg hnv, hlook]
    dsimp only
    rw [if_neg hsz, hvh]
    rfl

/-- A store with one non-gzip blob, for the C9 witness. -/
def ddC9 : DataDir := [("aa", [(digA ++ ".gz", ⟨.rawB "garbage", 7⟩)])]

theorem corrupt_blob_check_witness :
    verifyBlob mdW ddC9 false digA ⟨[], [], []⟩ =
      { verifiedBlobs := [digA], traversedDirs := [], errs := [] } ∧
    traverseDirectory mdW ddC9 false 5 digA ⟨[], [], []⟩ =
      (⟨[], [digA], [.dirReadErr digA]⟩, none) ∧
    verifyBlobHash mdW ddC9 digA = some (.corruptBlob digA true) ∧
    verifyBlob mdW ddC9 true digA ⟨[], [], []⟩ =
      { verifiedBlobs := [digA], traversedDirs := [], errs := [.corruptBlob digA true] } := by
  have h := corrupt_blob_check mdW ddC9 digA ⟨[], [], []⟩ "garbage" 7 (by decide) (by decide)
  refine ⟨?_, ?_, h.2.2.1, ?_⟩
  · have := h.1 (by decide)
    rw [this]
    decide
  · have := (h.2.1 4 (by decide)).1
    rw [this]
    decide
  · have := h.2.2.2 (by decide)
    rw [this]
    decide

/-! Embedding of BackupFile.Restore and BackupLink.Restore from
backup_entry.go, as the ordered sequence of filesystem operations they
perform (reads from the store model, writes as an action trace). -/

/-- One filesystem operation of a restore, with the permission bits the
call requests (before the process umask). -/
inductive RAct where
  | mkdirAll (path : String) (perm : Nat)
  | createFile (path : String) (perm : Nat) (content : String)
  | removePath (path : String)
  | mkSymlink (target dest : String)
deriving DecidableEq, Repr

/-- Split a byte sequence on `/`. -/
def splitSlashAux (acc : List Char) : List Char → List (List Char)
  | [] => [acc.reverse]
  | c :: cs =>
    if c = '/' then acc.reverse :: splitSlashAux [] cs
    else splitSlashAux (c :: acc) cs

/-- `filepath.Dir` for clean slash-separated relative paths (the only
shape Restore builds: `dest` joined with child names). -/
def parentDir (p : String) : String :=
  let parts := (splitSlashAux [] p.data).map String.mk
  if parts.length ≤ 1 then "." else joinSlash parts.dropLast

/-- BackupFile.Restore: open and decompress the blob (failures abort),
ensure the parent directory exists (perm 0755), then `os.Create` the
destination — which requests permission bits 0666, truncating any
existing file — and copy the decompressed content into it. -/
def BackupFileRestore (dd : DataDir) (hash dest : String) :
    Except String (List RAct) :=
  match blobLookup dd hash with
  | none => .error "failed to open store file"
  | some ⟨.rawB _, _⟩ => .error "failed to create gzip reader"
  | some ⟨.gzB p, _⟩ =>
    .ok [.mkdirAll (parentDir dest) 0o755, .createFile dest 0o666 p]

/-- BackupLink.Restore: open and decompress the blob to obtain the
target (failures abort), ensure the parent directory exists, remove the
destination if `os.Lstat` finds one (`destExists`), then create a
symlink whose target is the decompressed content. -/
def BackupLinkRestore (dd : DataDir) (hash dest : String) (destExists : Bool) :
    Except String (List RAct) :=
  match blobLookup dd hash with
  | none => .error "failed to open store file"
  | some ⟨.rawB _, _⟩ => .error "failed to create gzip reader"
  | some ⟨.gzB target, _⟩ =>
    .ok ([.mkdirAll (parentDir dest) 0o755] ++
      (if destExists then [.removePath dest] else []) ++
      [.mkSymlink target dest])

/-- A store with one valid gzip file blob, for C7. -/
def ddC7 : DataDir := [("aa", [(digA ++ ".gz", ⟨.gzB "hello", 25⟩)])]

/-- C7 counterexample: the claim says a File entry is restored with
file mode 0644 on POSIX.  The code calls `os.Create`, which requests
permission bits 0666 (the on-disk mode is 0666 masked by the process
umask; it equals 0644 only under the default umask 022): the create
action in the trace carries 0666, not 0644. -/
theorem restore_file_mode_not_0644 :
    BackupFileRestore ddC7 digA "out/f.txt" =
      .ok [.mkdirAll "out" 0o755, .createFile "out/f.txt" 0o666 "hello"] ∧
    (0o666 : Nat) ≠ 0o644 ∧
    RAct.createFile "out/f.txt" 0o666 "hello" ≠ .createFile "out/f.txt" 0o644 "hello" := by
  refine ⟨by decide, by decide, by decide⟩

/-- C7 (amended): restoring a File entry ensures the parent directory
exists and decompresses the blob into dest via `os.Create`, i.e. with
requested permission bits 0666 before the umask (0644 under the default
umask 022), truncating any existing file; restoring a Link entry
ensures the parent directory exists, removes an existing dest, and
creates a symlink whose target equals the decompressed blob content;
a missing or non-gzip blob aborts either restore. -/
theorem restore_file_and_link (dd : DataDir) (hash dest p : String) (sz : Nat)
    (hlook : blobLookup dd hash = some ⟨.gzB p, sz⟩) :
    BackupFileRestore dd hash dest =
      .ok [.mkdirAll (parentDir dest) 0o755, .createFile dest 0o666 p] ∧
    BackupLinkRestore dd hash dest true =
      .ok [.mkdirAll (parentDir dest) 0o755, .removePath dest, .mkSymlink p dest] ∧
    BackupLinkRestore dd hash dest false =
      .ok [.mkdirAll (parentDir dest) 0o755, .mkSymlink p dest] ∧
    (∀ (dd2 : DataDir) (b : String) (sz2 : Nat),
      blobLookup dd2 hash = some ⟨.rawB b, sz2⟩ →
      BackupFileRestore dd2 hash dest = .error "failed to create gzip reader" ∧
      BackupLinkRestore dd2 hash dest true = .error "failed to create gzip reader") ∧
    (∀ dd2 : DataDir, blobLookup dd2 hash = none →
      BackupFileRestore dd2 hash dest = .error "failed to open store file") := by
  refine ⟨?_, ?_, ?_, ?_, ?_⟩
  · unfold BackupFileRestore
    rw [hlook]
  · unfold BackupLinkRestore
    rw [hlook]
    rfl
  · unfold BackupLinkRestore
    rw [hlook]
    rfl
  · intro dd2 b sz2 hl2
    constructor
    · unfold BackupFileRestore
      rw [hl2]
    · unfold BackupLinkRestore
      rw [hl2]
  · intro dd2 hl2
    unfold BackupFileRestore
    rw [hl2]

theorem restore_file_and_link_witness :
    BackupFileRestore ddC7 digA "out/f.txt" =
      .ok [.mkdirAll (parentDir "out/f.txt") 0o755, .createFile "out/f.txt" 0o666 "hello"] ∧
    BackupLinkRestore ddC7 digA "out/ln" true =
      .ok [.mkdirAll (parentDir "out/ln") 0o755, .removePath "out/ln",
           .mkSymlink "hello" "out/ln"] ∧
    BackupFileRestore ddC9 digA "out/f.txt" = .error "failed to create gzip reader" := by
  have h1 := restore_file_and_link ddC7 digA "out/f.txt" "hello" 25 (by decide)
  have h2 := restore_file_and_link ddC7 digA "out/ln" "hello" 25 (by decide)
  exact ⟨h1.1, h2.2.1, (h1.2.2.2.1 ddC9 "garbage" 7 (by decide)).1⟩

end BackupSpec
